import Mathlib

/-!
# zcdis: the etcd coordination client (`models/etcd/etcdclient.go`)

A shallow embedding of the `etcdclient` package and theorems about it.

* A Go `string` and a Go `[]byte` are both byte sequences; the conversions
  `string(data)` and `[]byte(s)` copy the bytes unchanged, so both types are
  `List UInt8` here and the conversions are the identity.
* A Go `error` is `Option GoError` (`none` is `nil`); a Go `(T, error)` pair
  coming back from the store is `Except GoError T`.
* The store (`client.KeysAPI` of `github.com/coreos/etcd/client`) is outside
  the repository: it is a parameter `KeysAPI σ`, an arbitrary state machine
  on an arbitrary state type `σ`. Every store call the client issues is also
  appended to a log, so that "issues no call" and "issues one call" can be
  stated.
* `log.Debugf` has no effect on results and is left out.
-/

namespace Etcdclient

/-! ## Data model -/

/-- Go `string` / `[]byte`: a sequence of bytes. -/
abbrev GoString := List UInt8

/-- Go `[]string`. -/
abbrev Strings := List GoString

/-- `time.Duration`: a signed count of nanoseconds. -/
abbrev Duration := Int

/-- `time.Second`. -/
def Second : Duration := 1000000000

/-- `client.ErrorCodeKeyNotFound` of the etcd v2 client. -/
def ErrorCodeKeyNotFound : Int := 100

/-- `client.ErrorCodeNodeExist` of the etcd v2 client. -/
def ErrorCodeNodeExist : Int := 105

/-- The errors that flow through the package. `clientError` is a value of the
struct type `client.Error` (the only dynamic type for which the type assertion
`err.(client.Error)` succeeds); `other` is an error of any other dynamic type
(context errors, cluster errors, transport errors); the next three are the
package-level sentinels; `invalidAuth` is `errors.Errorf("invalid auth")`. -/
inductive GoError where
  | clientError (Code : Int) (Message : GoString)
  | other (msg : GoString)
  | ErrClosedClient
  | ErrNotDir
  | ErrNotFile
  | invalidAuth
  deriving DecidableEq, Repr

/-- `client.Node`: key, value, directory flag and child nodes. -/
inductive Node where
  | mk (Key : GoString) (Value : GoString) (Dir : Bool) (Nodes : List Node)

/-- Field `Key` of a node. -/
def Node.Key : Node → GoString
  | .mk k _ _ _ => k

/-- Field `Value` of a node. -/
def Node.Value : Node → GoString
  | .mk _ v _ _ => v

/-- Field `Dir` of a node. -/
def Node.Dir : Node → Bool
  | .mk _ _ d _ => d

/-- Field `Nodes` of a node. -/
def Node.Nodes : Node → List Node
  | .mk _ _ _ ns => ns

/-- `client.Response`, with the fields the package reads. A successful
response of the etcd v2 keys API always carries a node; the source
dereferences `r.Node` unconditionally. -/
structure Response where
  Action : GoString
  Node : Node
  Index : Nat

/-- `client.PrevExistType`. -/
inductive PrevExistType where
  | PrevIgnore
  | PrevExist
  | PrevNoExist
  deriving DecidableEq, Repr

/-- `client.SetOptions`, with the fields the package sets; a field that a
literal in the source leaves out has Go's zero value. -/
structure SetOptions where
  PrevExist : PrevExistType := .PrevIgnore
  TTL : Duration := 0
  Refresh : Bool := false
  Dir : Bool := false
  deriving DecidableEq, Repr

/-- `client.GetOptions`. -/
structure GetOptions where
  Sort' : Bool := false
  Quorum : Bool := false
  deriving DecidableEq, Repr

/-- `client.CreateInOrderOptions`. -/
structure CreateInOrderOptions where
  TTL : Duration := 0
  deriving DecidableEq, Repr

/-- `client.WatcherOptions`. -/
structure WatcherOptions where
  AfterIndex : Nat := 0
  deriving DecidableEq, Repr

/-- What the store can see of a `context.Context` handed to it: the timeout
of the per-call context (`none` for the root context itself) and whether the
root context it derives from has been cancelled. -/
structure Ctx where
  timeout : Option Duration
  cancelled : Bool
  deriving DecidableEq, Repr

/-- One call on the store, as recorded in the log. `Delete` is always called
with `nil` options. -/
inductive Call where
  | Get (ctx : Ctx) (key : GoString) (opts : GetOptions)
  | Set (ctx : Ctx) (key : GoString) (value : GoString) (opts : SetOptions)
  | Delete (ctx : Ctx) (key : GoString)
  | CreateInOrder (ctx : Ctx) (dir : GoString) (value : GoString) (opts : CreateInOrderOptions)
  deriving DecidableEq, Repr

/-- The methods of `client.KeysAPI` that the package calls synchronously, as
transitions of a store with state `σ`. -/
structure KeysAPI (σ : Type) where
  Get : Ctx → GoString → GetOptions → σ → Except GoError Response × σ
  Set : Ctx → GoString → GoString → SetOptions → σ → Except GoError Response × σ
  Delete : Ctx → GoString → σ → Except GoError Response × σ
  CreateInOrder : Ctx → GoString → GoString → CreateInOrderOptions → σ → Except GoError Response × σ

/-- The mutable fields of `Client`. `cancels` counts the invocations of
`c.cancel`; the root context `c.context` is cancelled once it is positive. -/
structure Client where
  closed : Bool
  timeout : Duration
  cancels : Nat
  deriving DecidableEq, Repr

/-- A background loop started by the package, with the channel it closes when
it ends: `refreshLoop path signal` is the goroutine of `runRefreshEphemeral`
(the function `refreshLoop` below), `watchLoop path opts signal` the
goroutine of `WatchInOrder` (the function `watchGoroutine` below). -/
inductive Goroutine where
  | refreshLoop (path : GoString) (signal : Nat)
  | watchLoop (path : GoString) (opts : WatcherOptions) (signal : Nat)
  deriving DecidableEq, Repr

/-- The client together with its environment: the store, the log of store
calls issued so far (oldest first) and the goroutines started so far. -/
structure World (σ : Type) where
  c : Client
  store : σ
  calls : List Call
  goroutines : List Goroutine
  deriving DecidableEq

/-! ## Error classifiers -/

/-- `isErrNoNode`. -/
def isErrNoNode (err : Option GoError) : Bool :=
  match err with
  | none => false
  | some (.clientError code _) => code == ErrorCodeKeyNotFound
  | some _ => false

/-- `isErrNodeExists`. -/
def isErrNodeExists (err : Option GoError) : Bool :=
  match err with
  | none => false
  | some (.clientError code _) => code == ErrorCodeNodeExist
  | some _ => false

/-! ## Client lifecycle -/

/-- `(*Client).newContext`: `context.WithTimeout(c.context, c.timeout)`. -/
def Client.newContext (c : Client) : Ctx :=
  { timeout := some c.timeout, cancelled := decide (0 < c.cancels) }

/-- The root context `c.context`, as `watch.Next` receives it. -/
def rootContext (c : Client) : Ctx :=
  { timeout := none, cancelled := decide (0 < c.cancels) }

/-- `(*Client).Close`. -/
def Client.Close {σ : Type} (w : World σ) : World σ :=
  if w.c.closed then w
  else { w with c := { w.c with closed := true, cancels := w.c.cancels + 1 } }

/-! ## Node operations -/

/-- `(*Client).Mkdir`. -/
def Client.Mkdir {σ : Type} (api : KeysAPI σ) (path : GoString) (w : World σ) :
    Option GoError × World σ :=
  if w.c.closed then (some .ErrClosedClient, w)
  else
    let context := w.c.newContext
    let opts : SetOptions := { Dir := true, PrevExist := .PrevNoExist }
    let r := api.Set context path [] opts w.store
    let w1 := { w with store := r.2, calls := w.calls ++ [Call.Set context path [] opts] }
    match r.1 with
    | .error err => if !isErrNodeExists (some err) then (some err, w1) else (none, w1)
    | .ok _ => (none, w1)

/-- `(*Client).set`. -/
def Client.set {σ : Type} (api : KeysAPI σ) (path : GoString) (data : GoString) (w : World σ) :
    Option GoError × World σ :=
  let context := w.c.newContext
  let opts : SetOptions := { PrevExist := .PrevExist }
  let r := api.Set context path data opts w.store
  let w1 := { w with store := r.2, calls := w.calls ++ [Call.Set context path data opts] }
  match r.1 with
  | .error err => (some err, w1)
  | .ok _ => (none, w1)

/-- `(*Client).Create`. -/
def Client.Create {σ : Type} (api : KeysAPI σ) (path : GoString) (data : GoString) (w : World σ) :
    Option GoError × World σ :=
  if w.c.closed then (some .ErrClosedClient, w)
  else
    let r := Client.set api path data w
    match r.1 with
    | some err => (some err, r.2)
    | none => (none, r.2)

/-- `(*Client).Update`. -/
def Client.Update {σ : Type} (api : KeysAPI σ) (path : GoString) (data : GoString) (w : World σ) :
    Option GoError × World σ :=
  if w.c.closed then (some .ErrClosedClient, w)
  else
    let r := Client.set api path data w
    match r.1 with
    | some err => (some err, r.2)
    | none => (none, r.2)

/-- `(*Client).Delete`. -/
def Client.Delete {σ : Type} (api : KeysAPI σ) (path : GoString) (w : World σ) :
    Option GoError × World σ :=
  if w.c.closed then (some .ErrClosedClient, w)
  else
    let context := w.c.newContext
    let r := api.Delete context path w.store
    let w1 := { w with store := r.2, calls := w.calls ++ [Call.Delete context path] }
    match r.1 with
    | .error err => if !isErrNoNode (some err) then (some err, w1) else (none, w1)
    | .ok _ => (none, w1)

/-- `(*Client).get`. -/
def Client.get {σ : Type} (api : KeysAPI σ) (path : GoString) (w : World σ) :
    Except GoError Response × World σ :=
  let context := w.c.newContext
  let opts : GetOptions := { Quorum := true }
  let r := api.Get context path opts w.store
  (r.1, { w with store := r.2, calls := w.calls ++ [Call.Get context path opts] })

/-- `(*Client).Read`. The first component is the `[]byte` result (`none` is
the nil slice), the second the error. -/
def Client.Read {σ : Type} (api : KeysAPI σ) (path : GoString) (must : Bool) (w : World σ) :
    (Option GoString × Option GoError) × World σ :=
  if w.c.closed then ((none, some .ErrClosedClient), w)
  else
    let g := Client.get api path w
    match g.1 with
    | .error err =>
      if isErrNoNode (some err) && !must then ((none, none), g.2)
      else ((none, some err), g.2)
    | .ok r =>
      if !r.Node.Dir then ((some r.Node.Value, none), g.2)
      else ((none, some .ErrNotFile), g.2)

/-- `(*Client).List`. The first component is the `[]string` result (`none`
is the nil slice: `paths` stays nil when the loop appends nothing). -/
def Client.List {σ : Type} (api : KeysAPI σ) (path : GoString) (must : Bool) (w : World σ) :
    (Option Strings × Option GoError) × World σ :=
  if w.c.closed then ((none, some .ErrClosedClient), w)
  else
    let g := Client.get api path w
    match g.1 with
    | .error err =>
      if isErrNoNode (some err) && !must then ((none, none), g.2)
      else ((none, some err), g.2)
    | .ok r =>
      if !r.Node.Dir then ((none, some .ErrNotDir), g.2)
      else
        let paths := r.Node.Nodes.map Node.Key
        ((if paths = [] then none else some paths, none), g.2)

/-- The Go string literal `"get"`. -/
def actionGet : GoString := [103, 101, 116]

/-! ## Ephemeral registration -/

/-- What a background loop does, in order. -/
inductive Event where
  | refresh (path : GoString) (err : Option GoError)
  | sleep (d : Duration)
  | watcher (path : GoString) (opts : WatcherOptions)
  | next (i : Nat)
  | close (signal : Nat)
  deriving DecidableEq, Repr

/-- `runRefreshEphemeral`, the part that runs in the caller: `make(chan
struct{})` allocates a fresh channel (numbered by the goroutines started so
far), `go func() ...` starts the loop, and the channel is returned. -/
def runRefreshEphemeral {σ : Type} (path : GoString) (w : World σ) : Nat × World σ :=
  let signal := w.goroutines.length
  (signal, { w with goroutines := w.goroutines ++ [Goroutine.refreshLoop path signal] })

/-- `(*Client).CreateEphemeral`. The first component is the channel (`none`
is the nil channel), the second the error. -/
def Client.CreateEphemeral {σ : Type} (api : KeysAPI σ) (path : GoString) (data : GoString)
    (w : World σ) : (Option Nat × Option GoError) × World σ :=
  if w.c.closed then ((none, some .ErrClosedClient), w)
  else
    let context := w.c.newContext
    let opts : SetOptions := { PrevExist := .PrevNoExist, TTL := w.c.timeout }
    let r := api.Set context path data opts w.store
    let w1 := { w with store := r.2, calls := w.calls ++ [Call.Set context path data opts] }
    match r.1 with
    | .error err => ((none, some err), w1)
    | .ok _ =>
      let s := runRefreshEphemeral path w1
      ((some s.1, none), s.2)

/-- `(*Client).CreateEphemeralInOrder`. The components are the channel, the
assigned key and the error. -/
def Client.CreateEphemeralInOrder {σ : Type} (api : KeysAPI σ) (path : GoString)
    (data : GoString) (w : World σ) : (Option Nat × GoString × Option GoError) × World σ :=
  if w.c.closed then ((none, [], some .ErrClosedClient), w)
  else
    let cntx := w.c.newContext
    let opts : CreateInOrderOptions := { TTL := w.c.timeout }
    let r := api.CreateInOrder cntx path data opts w.store
    let w1 := { w with store := r.2, calls := w.calls ++ [Call.CreateInOrder cntx path data opts] }
    match r.1 with
    | .error err => ((none, [], some err), w1)
    | .ok r =>
      let node := r.Node.Key
      let s := runRefreshEphemeral node w1
      ((some s.1, node, none), s.2)

/-- `(*Client).RefreshEphemeral`. -/
def Client.RefreshEphemeral {σ : Type} (api : KeysAPI σ) (path : GoString) (w : World σ) :
    Option GoError × World σ :=
  if w.c.closed then (some .ErrClosedClient, w)
  else
    let cntx := w.c.newContext
    let opts : SetOptions := { PrevExist := .PrevExist, Refresh := true, TTL := w.c.timeout }
    let r := api.Set cntx path [] opts w.store
    let w1 := { w with store := r.2, calls := w.calls ++ [Call.Set cntx path [] opts] }
    match r.1 with
    | .error err => (some err, w1)
    | .ok _ => (none, w1)

/-! ## Ordered queue and watch -/

/-- `(*Client).WatchInOrder`. The components are the channel, the snapshot
of child keys and the error. -/
def Client.WatchInOrder {σ : Type} (api : KeysAPI σ) (path : GoString) (w : World σ) :
    (Option Nat × Option Strings × Option GoError) × World σ :=
  let m := Client.Mkdir api path w
  match m.1 with
  | some err => ((none, none, some err), m.2)
  | none =>
    let w0 := m.2
    if w0.c.closed then ((none, none, some .ErrClosedClient), w0)
    else
      let cntx := w0.c.newContext
      let opts : GetOptions := { Quorum := true, Sort' := true }
      let r := api.Get cntx path opts w0.store
      let w1 := { w0 with store := r.2, calls := w0.calls ++ [Call.Get cntx path opts] }
      match r.1 with
      | .error err => ((none, none, some err), w1)
      | .ok r =>
        if !r.Node.Dir then ((none, none, some .ErrNotDir), w1)
        else
          let index := r.Index
          let paths := r.Node.Nodes.map Node.Key
          let signal := w1.goroutines.length
          let w2 := { w1 with goroutines :=
            w1.goroutines ++ [Goroutine.watchLoop path { AfterIndex := index } signal] }
          ((some signal, if paths = [] then none else some paths, none), w2)

/-! ## The constructor

`strings.HasPrefix`, `strings.Split` and `strings.SplitN` of the Go standard
library, for a non-empty separator (the package only splits on `","` and
`":"`). -/

/-- `strings.HasPrefix(s, pre)`. -/
def HasPrefix : GoString → GoString → Bool
  | _, [] => true
  | [], _ :: _ => false
  | a :: s, b :: pre => a == b && HasPrefix s pre

/-- The two parts `s[:m]` and `s[m+len(sep):]` of `s` around the first
occurrence of `sep`, where `m = strings.Index(s, sep)`; `none` when `sep`
does not occur (`m < 0`). -/
def cutAtIndex (sep : GoString) : GoString → Option (GoString × GoString)
  | [] => if sep = [] then some ([], []) else none
  | b :: t =>
    if HasPrefix (b :: t) sep then some ([], (b :: t).drop sep.length)
    else (cutAtIndex sep t).map (fun p => (b :: p.1, p.2))

/-- The loop of `strings.genSplit` (with `sepSave = 0`): at most `k` cuts,
then the rest of the string as the last piece. -/
def genSplit (sep : GoString) : Nat → GoString → Strings
  | 0, s => [s]
  | k + 1, s =>
    match cutAtIndex sep s with
    | none => [s]
    | some (a, rest) => a :: genSplit sep k rest

/-- `strings.SplitN(s, sep, n)` for a non-empty `sep`: nil when `n = 0`, at
most `n` pieces when `n > 0`, all pieces when `n < 0`. Go caps `n` at
`len(s) + 1`; for `n < 0` it takes `Count(s, sep) + 1`, which is at most
`len(s) + 1` and is reached exactly when the loop runs out of separators, so
the cap serves for both. -/
def SplitN (s sep : GoString) (n : Int) : Strings :=
  if n = 0 then []
  else
    let m : Nat := if n < 0 then s.length + 1 else min n.toNat (s.length + 1)
    genSplit sep (m - 1) s

/-- `strings.Split(s, sep)`. -/
def Split (s sep : GoString) : Strings :=
  SplitN s sep (-1)

/-- The Go string literal `"http://"`. -/
def httpScheme : GoString := [104, 116, 116, 112, 58, 47, 47]

/-- The Go string literal `","`. -/
def comma : GoString := [44]

/-- The Go string literal `":"`. -/
def colon : GoString := [58]

/-- `client.Config`, with the fields the package sets (`Transport` is always
`client.DefaultTransport`). -/
structure Config where
  Endpoints : Strings
  HeaderTimeoutPerRequest : Duration
  Username : GoString := []
  Password : GoString := []
  deriving DecidableEq, Repr

/-- `New`. The store client constructor `client.New` is the parameter
`clientNew`, returning a transport handle of type `τ` or an error. The
result is the handle the keys API is built from, together with the fields of
the fresh `Client` (open, root context not cancelled). -/
def New {τ : Type} (clientNew : Config → Except GoError τ) (addrlist : GoString)
    (auth : GoString) (timeout : Duration) : Except GoError (τ × Client) :=
  let endPoints := (Split addrlist comma).map
    (fun s => if s != [] && !HasPrefix s httpScheme then httpScheme ++ s else s)
  let timeout := if timeout ≤ 0 then Second * 5 else timeout
  let config : Config := { Endpoints := endPoints, HeaderTimeoutPerRequest := Second * 5 }
  let authed : Except GoError Config :=
    if auth != [] then
      match SplitN auth colon 2 with
      | [user, password] =>
        if user == [] then .error .invalidAuth
        else .ok { config with Username := user, Password := password }
      | _ => .error .invalidAuth
    else .ok config
  match authed with
  | .error err => .error err
  | .ok config =>
    match clientNew config with
    | .error err => .error err
    | .ok c => .ok (c, { closed := false, timeout := timeout, cancels := 0 })

/-! ## Sequences of public operations -/

/-- A call of one public method of `Client`, with its arguments. -/
inductive Op where
  | Close
  | Mkdir (path : GoString)
  | Create (path data : GoString)
  | Update (path data : GoString)
  | Delete (path : GoString)
  | Read (path : GoString) (must : Bool)
  | List (path : GoString) (must : Bool)
  | CreateEphemeral (path data : GoString)
  | CreateEphemeralInOrder (path data : GoString)
  | RefreshEphemeral (path : GoString)
  | WatchInOrder (path : GoString)
  deriving DecidableEq, Repr

/-- The world after one public operation. -/
def Op.exec {σ : Type} (api : KeysAPI σ) (op : Op) (w : World σ) : World σ :=
  match op with
  | .Close => Client.Close w
  | .Mkdir path => (Client.Mkdir api path w).2
  | .Create path data => (Client.Create api path data w).2
  | .Update path data => (Client.Update api path data w).2
  | .Delete path => (Client.Delete api path w).2
  | .Read path must => (Client.Read api path must w).2
  | .List path must => (Client.List api path must w).2
  | .CreateEphemeral path data => (Client.CreateEphemeral api path data w).2
  | .CreateEphemeralInOrder path data => (Client.CreateEphemeralInOrder api path data w).2
  | .RefreshEphemeral path => (Client.RefreshEphemeral api path w).2
  | .WatchInOrder path => (Client.WatchInOrder api path w).2

/-- The world after a sequence of public operations, first to last. -/
def execAll {σ : Type} (api : KeysAPI σ) (ops : List Op) (w : World σ) : World σ :=
  ops.foldl (fun acc op => op.exec api acc) w

/-! ## The renewal loop -/

/-- What the other goroutines do between two steps of a background loop:
public operations on the same client, and changes of the store from
elsewhere (other clients, expiry of keys). -/
structure Interference (σ : Type) where
  ops : List Op
  store : σ → σ

/-- The world after an interference. -/
def Interference.apply {σ : Type} (api : KeysAPI σ) (e : Interference σ) (w : World σ) :
    World σ :=
  let w1 := execAll api e.ops w
  { w1 with store := e.store w1.store }

/-- The goroutine of `runRefreshEphemeral`, for at most `fuel` iterations of
its `for` loop, `i` iterations having been completed before. Other
goroutines run between two iterations (while this one sleeps or waits for
the lock): `env i` is what they have done when iteration `i` gets the lock.
The result is what the goroutine did, in order, and the world it leaves. The
deferred `close(signal)` runs when the function literal returns. -/
def refreshLoop {σ : Type} (api : KeysAPI σ) (env : Nat → Interference σ)
    (path : GoString) (signal : Nat) : Nat → Nat → World σ → List Event × World σ
  | 0, _, w => ([], w)
  | fuel + 1, i, w =>
    let r := Client.RefreshEphemeral api path ((env i).apply api w)
    match r.1 with
    | some err => ([Event.refresh path (some err), Event.close signal], r.2)
    | none =>
      let rest := refreshLoop api env path signal fuel (i + 1) r.2
      (Event.refresh path none :: Event.sleep (Int.tdiv r.2.c.timeout 2) :: rest.1, rest.2)

/-- The result of the refresh attempt that comes `n` attempts after attempt
`i`, when attempt `i` starts from world `w` and the attempts in between are
all made. -/
def outcomeAt {σ : Type} (api : KeysAPI σ) (env : Nat → Interference σ) (path : GoString) :
    Nat → Nat → World σ → Option GoError
  | 0, i, w => (Client.RefreshEphemeral api path ((env i).apply api w)).1
  | n + 1, i, w =>
    outcomeAt api env path n (i + 1) (Client.RefreshEphemeral api path ((env i).apply api w)).2

/-- The world in which attempt `i + n` is made, under the same reading. -/
def worldAt {σ : Type} (api : KeysAPI σ) (env : Nat → Interference σ) (path : GoString) :
    Nat → Nat → World σ → World σ
  | 0, i, w => (env i).apply api w
  | n + 1, i, w =>
    worldAt api env path n (i + 1) (Client.RefreshEphemeral api path ((env i).apply api w)).2

/-- The events of `k` successful rounds: a refresh that succeeds, then a
sleep of `d`. -/
def okRounds (path : GoString) (d : Duration) : Nat → List Event
  | 0 => []
  | k + 1 => Event.refresh path none :: Event.sleep d :: okRounds path d k

/-- Whether an event is a refresh attempt. -/
def Event.isRefresh : Event → Bool
  | .refresh _ _ => true
  | _ => false

/-- Whether an event closes a channel. -/
def Event.isClose : Event → Bool
  | .close _ => true
  | _ => false

/-! ## The watch loop -/

/-- The goroutine of `WatchInOrder` after it has created the watcher, for at
most `fuel` iterations of its `for` loop, `i` iterations having been
completed before. `next i ctx` is what the `i`-th call `watch.Next(c.context)`
returns when `ctx` is the state of the root context at that time; `env i` is
what the other goroutines have done while the call was blocked. -/
def watchLoop {σ : Type} (api : KeysAPI σ) (env : Nat → Interference σ)
    (next : Nat → Ctx → Except GoError Response) (signal : Nat) :
    Nat → Nat → World σ → List Event
  | 0, _, _ => []
  | fuel + 1, i, w =>
    let w1 := (env i).apply api w
    match next i (rootContext w1.c) with
    | .error _ => [Event.next i, Event.close signal]
    | .ok r =>
      if r.Action != actionGet then [Event.next i, Event.close signal]
      else Event.next i :: watchLoop api env next signal fuel (i + 1) w1

/-- The whole goroutine of `WatchInOrder`: `c.kApi.Watcher(path, opts)`
creates the watcher, then the loop runs on it. `Watcher path opts` is the
watcher registered on `path` with `opts`. -/
def watchGoroutine {σ : Type} (api : KeysAPI σ) (env : Nat → Interference σ)
    (Watcher : GoString → WatcherOptions → Nat → Ctx → Except GoError Response)
    (path : GoString) (opts : WatcherOptions) (signal : Nat) (fuel : Nat) (w : World σ) :
    List Event :=
  Event.watcher path opts :: watchLoop api env (Watcher path opts) signal fuel 0 w

/-- The world at the time the result that comes `n` results after result `i`
is delivered, when the wait for result `i` starts in world `w`. -/
def watchWorld {σ : Type} (api : KeysAPI σ) (env : Nat → Interference σ) :
    Nat → Nat → World σ → World σ
  | 0, i, w => (env i).apply api w
  | n + 1, i, w => watchWorld api env n (i + 1) ((env i).apply api w)

/-- The result that comes `n` results after result `i`, under the same
reading. -/
def resultAt {σ : Type} (api : KeysAPI σ) (env : Nat → Interference σ)
    (next : Nat → Ctx → Except GoError Response) : Nat → Nat → World σ → Except GoError Response
  | 0, i, w => next i (rootContext ((env i).apply api w).c)
  | n + 1, i, w => resultAt api env next n (i + 1) ((env i).apply api w)

/-- A watcher honours cancellation: a call of `Next` whose context has been
cancelled returns an error. -/
def HonoursCancel (next : Nat → Ctx → Except GoError Response) : Prop :=
  ∀ i ctx, ctx.cancelled = true → ∃ e, next i ctx = .error e

/-- The root context of a closed client has been cancelled. -/
def CancelledWhenClosed (c : Client) : Prop :=
  c.closed = true → 0 < c.cancels

/-! ## The lock protocol

The methods again, this time as the sequence of their statements that touch
the mutex, the closed flag, the cancel function or the store, so that calls
running in different goroutines can be interleaved statement by statement.
`WatchInOrder` (a `Mkdir` followed by a locked check and `Get`) is left out. -/

/-- A statement of a method. -/
inductive Stmt where
  /-- `c.Lock()` with its `defer c.Unlock()`. -/
  | Lock
  /-- The deferred `c.Unlock()`, run when the method returns. -/
  | Unlock
  /-- `if c.closed { return ... }`. -/
  | ifClosedReturn
  /-- A call of a method of `c.kApi`. -/
  | storeCall
  /-- `c.closed = true`. -/
  | setClosed
  /-- `c.cancel()`. -/
  | cancel
  deriving DecidableEq, Repr

/-- A sequence of statements. -/
abbrev Stmts := List Stmt

/-- The methods of `Client` that take part. -/
inductive Method where
  | Close
  | Mkdir
  | Create
  | Update
  | Delete
  | Read
  | List
  | CreateEphemeral
  | CreateEphemeralInOrder
  | RefreshEphemeral
  deriving DecidableEq, Repr

/-- The statements of `(*Client).set`: lock, call the store, unlock. It does
not read `c.closed`. -/
def setBody : Stmts := [.Lock, .storeCall, .Unlock]

/-- The statements of `(*Client).get`: lock, call the store, unlock. It does
not read `c.closed`. -/
def getBody : Stmts := [.Lock, .storeCall, .Unlock]

/-- The statements of each method, in program order. `Close`, `Mkdir`,
`Delete`, `CreateEphemeral`, `CreateEphemeralInOrder` and `RefreshEphemeral`
lock first and test `c.closed` under the lock. `Create`, `Update`, `Read`
and `List` test `c.closed` first and then call `set` or `get`. -/
def Method.body : Method → Stmts
  | .Close => [.Lock, .ifClosedReturn, .setClosed, .cancel, .Unlock]
  | .Mkdir => [.Lock, .ifClosedReturn, .storeCall, .Unlock]
  | .Delete => [.Lock, .ifClosedReturn, .storeCall, .Unlock]
  | .CreateEphemeral => [.Lock, .ifClosedReturn, .storeCall, .Unlock]
  | .CreateEphemeralInOrder => [.Lock, .ifClosedReturn, .storeCall, .Unlock]
  | .RefreshEphemeral => [.Lock, .ifClosedReturn, .storeCall, .Unlock]
  | .Create => .ifClosedReturn :: setBody
  | .Update => .ifClosedReturn :: setBody
  | .Read => .ifClosedReturn :: getBody
  | .List => .ifClosedReturn :: getBody

/-- A goroutine inside a call of `method`, with the statements it has still
to run. -/
structure Thread where
  method : Method
  rest : List Stmt
  deriving DecidableEq, Repr

/-- What can be observed of an interleaved run. -/
inductive Obs where
  /-- Thread `tid` read `c.closed`, holding the lock or not. -/
  | readClosed (tid : Nat) (lockHeld : Bool)
  /-- Thread `tid` began a store call. -/
  | storeCall (tid : Nat)
  /-- The call of `method` in thread `tid` returned. -/
  | returned (tid : Nat) (method : Method)
  deriving DecidableEq, Repr

/-- The shared state of the goroutines: who holds the mutex, the closed
flag, the number of invocations of `cancel`, and the observations so far. -/
structure Sys where
  threads : List Thread
  lock : Option Nat
  closed : Bool
  cancels : Nat
  trace : List Obs
  deriving DecidableEq, Repr

/-- An open client and one goroutine per method call, none started yet. -/
def Sys.init (calls : List Method) : Sys :=
  { threads := calls.map (fun m => { method := m, rest := m.body }),
    lock := none, closed := false, cancels := 0, trace := [] }

/-- Thread `tid` moves on to `rest`; its call has returned when nothing is
left. -/
def Sys.advance (s : Sys) (tid : Nat) (th : Thread) (rest : List Stmt) : Sys :=
  { s with
    threads := s.threads.set tid { th with rest := rest },
    trace := if rest = [] then s.trace ++ [Obs.returned tid th.method] else s.trace }

/-- One statement of thread `tid`; `none` when the thread does not exist,
has returned, or is blocked on the mutex. A return runs the deferred
`Unlock` when the thread holds the lock. -/
def Sys.step (s : Sys) (tid : Nat) : Option Sys :=
  match s.threads[tid]? with
  | none => none
  | some th =>
    match th.rest with
    | [] => none
    | .Lock :: rest =>
      if s.lock = none then some ({ s with lock := some tid }.advance tid th rest) else none
    | .Unlock :: rest =>
      if s.lock = some tid then some ({ s with lock := none }.advance tid th rest) else none
    | .ifClosedReturn :: rest =>
      let held := decide (s.lock = some tid)
      let s1 := { s with trace := s.trace ++ [Obs.readClosed tid held] }
      if s.closed then some (s1.advance tid th (if held then [.Unlock] else []))
      else some (s1.advance tid th rest)
    | .storeCall :: rest =>
      some ({ s with trace := s.trace ++ [Obs.storeCall tid] }.advance tid th rest)
    | .setClosed :: rest => some ({ s with closed := true }.advance tid th rest)
    | .cancel :: rest => some ({ s with cancels := s.cancels + 1 }.advance tid th rest)

/-- A run under a schedule: the threads take one step each in the given
order; `none` when a scheduled thread cannot step. -/
def Sys.run (s : Sys) : List Nat → Option Sys
  | [] => some s
  | tid :: sched =>
    match s.step tid with
    | none => none
    | some s1 => s1.run sched

/-- Whether an observation is the beginning of a store call. -/
def Obs.isStoreCall : Obs → Bool
  | .storeCall _ => true
  | _ => false

/-- Whether an observation is the return of a `Close`. -/
def Obs.isCloseReturned : Obs → Bool
  | .returned _ .Close => true
  | _ => false

/-- Whether an observation is a read of `c.closed` without the lock. -/
def Obs.isUnlockedRead : Obs → Bool
  | .readClosed _ false => true
  | _ => false

/-- Whether some store call begins after some `Close` has returned. -/
def storeCallAfterClose : List Obs → Bool
  | [] => false
  | o :: rest => (o.isCloseReturned && rest.any Obs.isStoreCall) || storeCallAfterClose rest

/-- Goroutine 0 calls `m`, goroutine 1 calls `Close`, and the schedule is:
one statement of `m`, then all five of `Close`, then the rest of `m`. The
result is the closed flag at the end, the observations, whether a store call
began after `Close` returned, and whether `c.closed` was read without the
lock (`none` when the schedule cannot run). -/
def closeDuring (m : Method) : Option (Bool × List Obs × Bool × Bool) :=
  ((Sys.init [m, Method.Close]).run [0, 1, 1, 1, 1, 1, 0, 0, 0]).map
    (fun s => (s.closed, s.trace, storeCallAfterClose s.trace,
      s.trace.any Obs.isUnlockedRead))

/-- The methods that test `c.closed` under the lock. -/
def Method.locked : Method → Bool
  | .Close => true
  | .Mkdir => true
  | .Delete => true
  | .CreateEphemeral => true
  | .CreateEphemeralInOrder => true
  | .RefreshEphemeral => true
  | _ => false

/-- Where a thread of a locking method can be: not started, or holding the
lock before the test, before the store call (client open), before
`setClosed`, before `cancel` or before the unlock, or returned. `mine` is
whether the thread holds the lock, `closed` the closed flag. -/
def Thread.ok (mine closed : Bool) (th : Thread) : Bool :=
  th.method.locked &&
  ((th.rest == th.method.body && !mine)
  || (th.rest == th.method.body.tail && mine)
  || (th.rest == [.storeCall, .Unlock] && mine && !closed && th.method != .Close)
  || (th.rest == [.setClosed, .cancel, .Unlock] && mine && th.method == .Close)
  || (th.rest == [.cancel, .Unlock] && mine && closed && th.method == .Close)
  || (th.rest == [.Unlock] && mine && (th.method != .Close || closed))
  || (th.rest == [] && !mine && (th.method != .Close || closed)))

/-- The invariant of runs of locking methods. -/
structure Inv (s : Sys) : Prop where
  threads : ∀ tid th, s.threads[tid]? = some th →
    Thread.ok (s.lock == some tid) s.closed th = true
  closeRet : s.trace.any Obs.isCloseReturned = true → s.closed = true
  safe : storeCallAfterClose s.trace = false
  locked : s.trace.any Obs.isUnlockedRead = false

/-! ## Example stores

Two stores to evaluate the model on. The theorems hold for every `KeysAPI`;
these only serve as concrete instances. -/

/-- ASCII text as a Go string. -/
def ascii (s : String) : GoString :=
  s.data.map (fun ch => UInt8.ofNat ch.toNat)

/-- The next canned response of a scripted store. -/
def popResponse : List (Except GoError Response) →
    Except GoError Response × List (Except GoError Response)
  | [] => (.error (.other (ascii "unexpected EOF")), [])
  | r :: rs => (r, rs)

/-- A store that answers its calls with a fixed script of responses,
whatever the calls are. -/
def scriptedApi : KeysAPI (List (Except GoError Response)) where
  Get := fun _ _ _ s => popResponse s
  Set := fun _ _ _ _ s => popResponse s
  Delete := fun _ _ s => popResponse s
  CreateInOrder := fun _ _ _ _ s => popResponse s

/-- An entry of the in-memory store. -/
structure MemEntry where
  key : GoString
  value : GoString
  dir : Bool
  deriving DecidableEq, Repr

/-- An in-memory store: its entries and its modification index. -/
structure MemStore where
  entries : List MemEntry
  index : Nat
  deriving DecidableEq, Repr

/-- Whether a key is present in the in-memory store. -/
def MemStore.has (s : MemStore) (key : GoString) : Bool :=
  s.entries.any (fun e => e.key == key)

/-- The entry of a key as a node with its children (the entries below
`key/`). -/
def MemStore.node (s : MemStore) (e : MemEntry) : Node :=
  Node.mk e.key e.value e.dir
    ((s.entries.filter (fun x => HasPrefix x.key (e.key ++ [47]))).map
      (fun x => Node.mk x.key x.value x.dir []))

/-- Writes an entry, replacing one with the same key. -/
def MemStore.put (s : MemStore) (e : MemEntry) : MemStore :=
  { entries := s.entries.filter (fun x => x.key != e.key) ++ [e], index := s.index + 1 }

/-- An in-memory store that honours the must-exist and must-not-exist
preconditions and reports the etcd error codes 100 and 105. It has no clock:
keys never expire. -/
def memApi : KeysAPI MemStore where
  Get := fun _ key _ s =>
    match s.entries.find? (fun e => e.key == key) with
    | none => (.error (.clientError ErrorCodeKeyNotFound (ascii "Key not found")), s)
    | some e => (.ok { Action := actionGet, Node := s.node e, Index := s.index }, s)
  Set := fun _ key value opts s =>
    if opts.PrevExist = .PrevNoExist && s.has key then
      (.error (.clientError ErrorCodeNodeExist (ascii "Key already exists")), s)
    else if opts.PrevExist = .PrevExist && !s.has key then
      (.error (.clientError ErrorCodeKeyNotFound (ascii "Key not found")), s)
    else
      let e : MemEntry := { key := key, value := value, dir := opts.Dir }
      let s1 := s.put e
      (.ok { Action := ascii "set", Node := s1.node e, Index := s1.index }, s1)
  Delete := fun _ key s =>
    match s.entries.find? (fun e => e.key == key) with
    | none => (.error (.clientError ErrorCodeKeyNotFound (ascii "Key not found")), s)
    | some e =>
      let s1 : MemStore :=
        { entries := s.entries.filter (fun x => x.key != key), index := s.index + 1 }
      (.ok { Action := ascii "delete", Node := s.node e, Index := s1.index }, s1)
  CreateInOrder := fun _ dir value _ s =>
    let e : MemEntry :=
      { key := dir ++ [47] ++ (Nat.toDigits 10 (s.index + 1)).map (fun ch => UInt8.ofNat ch.toNat),
        value := value, dir := false }
    let s1 := s.put e
    (.ok { Action := ascii "create", Node := s1.node e, Index := s1.index }, s1)

/-- An open client with a five-second timeout on a store in state `s`. -/
def openWorld {σ : Type} (s : σ) : World σ :=
  { c := { closed := false, timeout := Second * 5, cancels := 0 }, store := s,
    calls := [], goroutines := [] }

/-- An open client on the scripted store with the given script. -/
def scriptedWorld (script : List (Except GoError Response)) :
    World (List (Except GoError Response)) :=
  openWorld script

/-- A closed client on a store in state `s`. -/
def closedWorld {σ : Type} (s : σ) : World σ :=
  Client.Close (openWorld s)

/-- An interference: nothing happens before the first two steps of a loop,
another goroutine calls `Close` before the third. -/
def closeBeforeThird : Nat → Interference MemStore :=
  fun i => { ops := if i = 2 then [Op.Close] else [], store := id }

/-- A watcher: two read confirmations, then the creation of `/q/3`. -/
def createdThird : GoString → WatcherOptions → Nat → Ctx → Except GoError Response :=
  fun _ _ i _ =>
    if i < 2 then .ok ⟨actionGet, Node.mk (ascii "/q") [] true [], 9⟩
    else .ok ⟨ascii "create", Node.mk (ascii "/q/3") (ascii "C") false [], 10⟩

/-- A watcher that reports no event and fails once its context has been
cancelled. -/
def idleWatcher : GoString → WatcherOptions → Nat → Ctx → Except GoError Response :=
  fun _ _ _ ctx =>
    if ctx.cancelled then .error (.other (ascii "context canceled"))
    else .ok ⟨actionGet, Node.mk (ascii "/q") [] true [], 9⟩

/-- No interference. -/
def quiet {σ : Type} : Nat → Interference σ :=
  fun _ => { ops := [], store := id }

/-- A store honours the must-not-exist precondition, with respect to a
notion `present s key` of a key being present in store state `s`: a `Set`
with `PrevNoExist` on a present key fails with the already-exists code, and
a `Set` that succeeds leaves its key present. -/
structure HonoursPrevNoExist {σ : Type} (api : KeysAPI σ) (present : σ → GoString → Prop) :
    Prop where
  rejects : ∀ ctx key value opts s, opts.PrevExist = PrevExistType.PrevNoExist →
    present s key →
    ∃ msg, (api.Set ctx key value opts s).1 = .error (.clientError ErrorCodeNodeExist msg)
  stores : ∀ ctx key value opts s resp, (api.Set ctx key value opts s).1 = .ok resp →
    present (api.Set ctx key value opts s).2 key

/-! ## Lemmas -/

/-- `Mkdir` leaves the fields of the client as they are. -/
theorem Mkdir_client_eq {σ : Type} (api : KeysAPI σ) (path : GoString) (w : World σ) :
    (Client.Mkdir api path w).2.c = w.c := by
  simp only [Client.Mkdir]
  split
  · rfl
  · split <;> [split; skip] <;> rfl

/-- Every public operation other than `Close` leaves the fields of the
client as they are. -/
theorem exec_client_eq {σ : Type} (api : KeysAPI σ) (op : Op) (w : World σ)
    (hop : op ≠ Op.Close) : (op.exec api w).c = w.c := by
  cases op with
  | Close => exact absurd rfl hop
  | Mkdir path => exact Mkdir_client_eq api path w
  | Create path data =>
    simp only [Op.exec, Client.Create, Client.set]
    split
    · rfl
    · split <;> split <;> rfl
  | Update path data =>
    simp only [Op.exec, Client.Update, Client.set]
    split
    · rfl
    · split <;> split <;> rfl
  | Delete path =>
    simp only [Op.exec, Client.Delete]
    split
    · rfl
    · split <;> [split; skip] <;> rfl
  | Read path must =>
    simp only [Op.exec, Client.Read, Client.get]
    split
    · rfl
    · split <;> split <;> rfl
  | List path must =>
    simp only [Op.exec, Client.List, Client.get]
    split
    · rfl
    · split <;> split <;> rfl
  | CreateEphemeral path data =>
    simp only [Op.exec, Client.CreateEphemeral, runRefreshEphemeral]
    split
    · rfl
    · split <;> rfl
  | CreateEphemeralInOrder path data =>
    simp only [Op.exec, Client.CreateEphemeralInOrder, runRefreshEphemeral]
    split
    · rfl
    · split <;> rfl
  | RefreshEphemeral path =>
    simp only [Op.exec, Client.RefreshEphemeral]
    split
    · rfl
    · split <;> rfl
  | WatchInOrder path =>
    have hm := Mkdir_client_eq api path w
    simp only [Op.exec, Client.WatchInOrder]
    split
    · exact hm
    · split
      · exact hm
      · split
        · exact hm
        · split <;> exact hm

/-- The fields of the client after a sequence of public operations: the
closed flag is set exactly when it was set before or the sequence contains a
`Close`; `cancel` has been invoked once more exactly when the client was open
and the sequence contains a `Close`; the timeout is unchanged. -/
theorem execAll_client_fields {σ : Type} (api : KeysAPI σ) (ops : List Op) (w : World σ) :
    (execAll api ops w).c.closed = (w.c.closed || decide (Op.Close ∈ ops)) ∧
    (execAll api ops w).c.cancels =
      w.c.cancels + (if w.c.closed = false ∧ Op.Close ∈ ops then 1 else 0) ∧
    (execAll api ops w).c.timeout = w.c.timeout := by
  induction ops generalizing w with
  | nil => simp [execAll]
  | cons op ops ih =>
    have ih1 := ih (op.exec api w)
    simp only [execAll, List.foldl_cons] at ih1 ⊢
    by_cases hop : op = Op.Close
    · subst hop
      cases hc : w.c.closed
      · have e1 : (Op.exec api Op.Close w).c.closed = true := by
          simp [Op.exec, Client.Close, hc]
        have e2 : (Op.exec api Op.Close w).c.cancels = w.c.cancels + 1 := by
          simp [Op.exec, Client.Close, hc]
        have e3 : (Op.exec api Op.Close w).c.timeout = w.c.timeout := by
          simp [Op.exec, Client.Close, hc]
        rw [e1, e2, e3] at ih1
        simpa using ih1
      · have e0 : Op.exec api Op.Close w = w := by
          simp [Op.exec, Client.Close, hc]
        simp only [e0] at ih1 ⊢
        simpa [hc] using ih1
    · have e0 := exec_client_eq api op w hop
      rw [e0] at ih1
      have hne : ¬ Op.Close = op := fun h => hop h.symm
      simpa [List.mem_cons, hne] using ih1

/-- `RefreshEphemeral` leaves the fields of the client as they are. -/
theorem RefreshEphemeral_client_eq {σ : Type} (api : KeysAPI σ) (path : GoString)
    (w : World σ) : (Client.RefreshEphemeral api path w).2.c = w.c :=
  exec_client_eq api (Op.RefreshEphemeral path) w (fun hc => Op.noConfusion hc)

/-- An interference leaves the timeout of the client as it is. -/
theorem Interference.apply_timeout {σ : Type} (api : KeysAPI σ) (e : Interference σ)
    (w : World σ) : (e.apply api w).c.timeout = w.c.timeout :=
  (execAll_client_fields api e.ops w).2.2

/-- After an interference that contains a `Close` the client is closed. -/
theorem Interference.apply_closed {σ : Type} (api : KeysAPI σ) (e : Interference σ)
    (w : World σ) (hc : Op.Close ∈ e.ops) : (e.apply api w).c.closed = true := by
  have h := (execAll_client_fields api e.ops w).1
  simp only [Interference.apply]
  rw [h]
  simp [hc]

/-- A round of the renewal loop leaves the timeout as it is. -/
theorem round_timeout {σ : Type} (api : KeysAPI σ) (e : Interference σ) (path : GoString)
    (w : World σ) :
    (Client.RefreshEphemeral api path (e.apply api w)).2.c.timeout = w.c.timeout := by
  rw [RefreshEphemeral_client_eq, Interference.apply_timeout]

/-- The outcome of an attempt is the result of `RefreshEphemeral` in the
world in which the attempt is made. -/
theorem outcomeAt_eq {σ : Type} (api : KeysAPI σ) (env : Nat → Interference σ)
    (path : GoString) (n i : Nat) (w : World σ) :
    outcomeAt api env path n i w
      = (Client.RefreshEphemeral api path (worldAt api env path n i w)).1 := by
  induction n generalizing i w with
  | zero => rfl
  | succ n ih => exact ih (i + 1) _

/-- The world of attempt `i + n` is closed when the interference right
before it contains a `Close`. -/
theorem worldAt_closed {σ : Type} (api : KeysAPI σ) (env : Nat → Interference σ)
    (path : GoString) (n i : Nat) (w : World σ) (hc : Op.Close ∈ (env (i + n)).ops) :
    (worldAt api env path n i w).c.closed = true := by
  induction n generalizing i w with
  | zero => exact Interference.apply_closed api (env i) w hc
  | succ n ih =>
    have hidx : i + (n + 1) = i + 1 + n := by omega
    rw [hidx] at hc
    exact ih (i + 1) _ hc

/-- While every attempt succeeds, the loop does one successful round per
unit of fuel and nothing else. -/
theorem refreshLoop_ok {σ : Type} (api : KeysAPI σ) (env : Nat → Interference σ)
    (path : GoString) (signal : Nat) (n i : Nat) (w : World σ)
    (hok : ∀ j, j < n → outcomeAt api env path j i w = none) :
    (refreshLoop api env path signal n i w).1 = okRounds path (Int.tdiv w.c.timeout 2) n := by
  induction n generalizing i w with
  | zero => rfl
  | succ n ih =>
    have h0 : (Client.RefreshEphemeral api path ((env i).apply api w)).1 = none :=
      hok 0 (Nat.succ_pos n)
    have hrest := ih (i + 1) (Client.RefreshEphemeral api path ((env i).apply api w)).2
      (fun j hj => hok (j + 1) (Nat.succ_lt_succ hj))
    rw [round_timeout] at hrest
    rw [refreshLoop]
    simp only [h0, okRounds, hrest, round_timeout]

/-- When attempt `k` is the first to fail, the loop does `k` successful
rounds, the failing attempt, and closes the channel, whatever fuel is left. -/
theorem refreshLoop_fail {σ : Type} (api : KeysAPI σ) (env : Nat → Interference σ)
    (path : GoString) (signal : Nat) (k extra i : Nat) (w : World σ) (err : GoError)
    (hok : ∀ j, j < k → outcomeAt api env path j i w = none)
    (hfail : outcomeAt api env path k i w = some err) :
    (refreshLoop api env path signal (k + extra + 1) i w).1
      = okRounds path (Int.tdiv w.c.timeout 2) k
        ++ [Event.refresh path (some err), Event.close signal] := by
  induction k generalizing i w with
  | zero =>
    have h0 : (Client.RefreshEphemeral api path ((env i).apply api w)).1 = some err := hfail
    rw [refreshLoop]
    simp only [h0, okRounds, List.nil_append]
  | succ k ih =>
    have h0 : (Client.RefreshEphemeral api path ((env i).apply api w)).1 = none :=
      hok 0 (Nat.succ_pos k)
    have hrest := ih (i + 1) (Client.RefreshEphemeral api path ((env i).apply api w)).2
      (fun j hj => hok (j + 1) (Nat.succ_lt_succ hj)) hfail
    rw [round_timeout] at hrest
    have hfuel : k + 1 + extra + 1 = (k + extra + 1) + 1 := by omega
    rw [hfuel, refreshLoop]
    simp only [h0, okRounds, hrest, round_timeout, List.cons_append]

/-- Successful rounds contain one refresh each. -/
theorem okRounds_countP_isRefresh (path : GoString) (d : Duration) (k : Nat) :
    (okRounds path d k).countP Event.isRefresh = k := by
  induction k with
  | zero => rfl
  | succ k ih => simp [okRounds, Event.isRefresh, ih]

/-- Successful rounds close no channel. -/
theorem okRounds_countP_isClose (path : GoString) (d : Duration) (k : Nat) :
    (okRounds path d k).countP Event.isClose = 0 := by
  induction k with
  | zero => rfl
  | succ k ih => simp [okRounds, Event.isClose, ih]

/-- `Mkdir` starts no goroutine. -/
theorem Mkdir_goroutines_eq {σ : Type} (api : KeysAPI σ) (path : GoString) (w : World σ) :
    (Client.Mkdir api path w).2.goroutines = w.goroutines := by
  simp only [Client.Mkdir]
  split
  · rfl
  · split <;> [split; skip] <;> rfl

/-- While every result is a read confirmation, the watch loop consumes one
result per unit of fuel and nothing else. -/
theorem watchLoop_get {σ : Type} (api : KeysAPI σ) (env : Nat → Interference σ)
    (next : Nat → Ctx → Except GoError Response) (signal : Nat) (n i : Nat) (w : World σ)
    (hget : ∀ j, j < n → ∃ x, resultAt api env next j i w = .ok x ∧ x.Action = actionGet) :
    watchLoop api env next signal n i w = (List.range' i n).map Event.next := by
  induction n generalizing i w with
  | zero => rfl
  | succ n ih =>
    obtain ⟨x, hx, hact⟩ := hget 0 (Nat.succ_pos n)
    have hx0 : next i (rootContext ((env i).apply api w).c) = .ok x := hx
    have hrest := ih (i + 1) ((env i).apply api w)
      (fun j hj => hget (j + 1) (Nat.succ_lt_succ hj))
    rw [watchLoop]
    simp only [hx0, hact, hrest, List.range'_succ, List.map_cons]
    simp

/-- When result `k` is the first that is an error or not a read
confirmation, the watch loop consumes the results up to it and closes the
channel, whatever fuel is left. -/
theorem watchLoop_stop {σ : Type} (api : KeysAPI σ) (env : Nat → Interference σ)
    (next : Nat → Ctx → Except GoError Response) (signal : Nat) (k extra i : Nat) (w : World σ)
    (hget : ∀ j, j < k → ∃ x, resultAt api env next j i w = .ok x ∧ x.Action = actionGet)
    (hstop : (∃ e, resultAt api env next k i w = .error e) ∨
      ∃ x, resultAt api env next k i w = .ok x ∧ x.Action ≠ actionGet) :
    watchLoop api env next signal (k + extra + 1) i w
      = (List.range' i (k + 1)).map Event.next ++ [Event.close signal] := by
  induction k generalizing i w with
  | zero =>
    rw [watchLoop]
    rcases hstop with ⟨e, he⟩ | ⟨x, hx, hact⟩
    · have he0 : next i (rootContext ((env i).apply api w).c) = .error e := he
      simp [he0]
    · have hx0 : next i (rootContext ((env i).apply api w).c) = .ok x := hx
      simp [hx0, hact]
  | succ k ih =>
    obtain ⟨x, hx, hact⟩ := hget 0 (Nat.succ_pos k)
    have hx0 : next i (rootContext ((env i).apply api w).c) = .ok x := hx
    have hrest := ih (i + 1) ((env i).apply api w)
      (fun j hj => hget (j + 1) (Nat.succ_lt_succ hj)) hstop
    have hfuel : k + 1 + extra + 1 = (k + extra + 1) + 1 := by omega
    rw [hfuel, watchLoop]
    simp only [hx0, hact, hrest]
    rw [List.range'_succ i (k + 1)]
    simp

/-- A result is what `Next` returns on the root context of the world in
which it is delivered. -/
theorem resultAt_eq {σ : Type} (api : KeysAPI σ) (env : Nat → Interference σ)
    (next : Nat → Ctx → Except GoError Response) (n i : Nat) (w : World σ) :
    resultAt api env next n i w = next (i + n) (rootContext (watchWorld api env n i w).c) := by
  induction n generalizing i w with
  | zero => rfl
  | succ n ih =>
    have hidx : i + (n + 1) = i + 1 + n := by omega
    rw [hidx]
    exact ih (i + 1) _

/-- An interference keeps the root context of a closed client cancelled. -/
theorem Interference.apply_cancelledWhenClosed {σ : Type} (api : KeysAPI σ)
    (e : Interference σ) (w : World σ) (hw : CancelledWhenClosed w.c) :
    CancelledWhenClosed (e.apply api w).c := by
  have h := execAll_client_fields api e.ops w
  intro hc
  have hc1 : (execAll api e.ops w).c.closed = true := hc
  show 0 < (execAll api e.ops w).c.cancels
  rw [h.2.1]
  rw [h.1] at hc1
  cases hcl : w.c.closed with
  | true => exact Nat.lt_of_lt_of_le (hw hcl) (Nat.le_add_right _ _)
  | false =>
    have hmem : Op.Close ∈ e.ops := by simpa [hcl] using hc1
    simp [hmem]

/-- In every world of the watch the root context of a closed client has
been cancelled. -/
theorem watchWorld_cancelledWhenClosed {σ : Type} (api : KeysAPI σ)
    (env : Nat → Interference σ) (n i : Nat) (w : World σ) (hw : CancelledWhenClosed w.c) :
    CancelledWhenClosed (watchWorld api env n i w).c := by
  induction n generalizing i w with
  | zero => exact Interference.apply_cancelledWhenClosed api (env i) w hw
  | succ n ih => exact ih (i + 1) _ (Interference.apply_cancelledWhenClosed api (env i) w hw)

/-- The world of result `i + n` is closed when the interference right before
it contains a `Close`. -/
theorem watchWorld_closed {σ : Type} (api : KeysAPI σ) (env : Nat → Interference σ)
    (n i : Nat) (w : World σ) (hc : Op.Close ∈ (env (i + n)).ops) :
    (watchWorld api env n i w).c.closed = true := by
  induction n generalizing i w with
  | zero => exact Interference.apply_closed api (env i) w hc
  | succ n ih =>
    have hidx : i + (n + 1) = i + 1 + n := by omega
    rw [hidx] at hc
    exact ih (i + 1) _ hc

/-- Cutting at `":"` finds nothing in a string without a colon. -/
theorem cutAtIndex_colon_none (s : GoString) (hs : (58 : UInt8) ∉ s) :
    cutAtIndex colon s = none := by
  induction s with
  | nil => simp [cutAtIndex, colon]
  | cons b t ih =>
    have hb : ¬ b = 58 := fun hb => hs (by simp [hb])
    have ht : (58 : UInt8) ∉ t := fun ht => hs (by simp [ht])
    have ih1 := ih ht
    simp only [colon] at ih1
    simp [cutAtIndex, colon, HasPrefix, hb, ih1]

/-- Cutting at `":"` splits at the first colon. -/
theorem cutAtIndex_colon_some (user password : GoString) (hu : (58 : UInt8) ∉ user) :
    cutAtIndex colon (user ++ 58 :: password) = some (user, password) := by
  induction user with
  | nil => simp [cutAtIndex, colon, HasPrefix]
  | cons b t ih =>
    have hb : ¬ b = 58 := fun hb => hu (by simp [hb])
    have ht : (58 : UInt8) ∉ t := fun ht => hu (by simp [ht])
    have ih1 := ih ht
    simp only [colon] at ih1
    simp [cutAtIndex, colon, HasPrefix, hb, ih1]

/-- `SplitN(s, ":", 2)` of a non-empty string is one cut at the first
colon. -/
theorem SplitN_colon_two (s : GoString) (hs : s ≠ []) :
    SplitN s colon 2 = genSplit colon 1 s := by
  have hlen : 0 < s.length := List.length_pos.2 hs
  have hmin : min 2 (s.length + 1) = 2 := by omega
  simp [SplitN, hmin]

/-- A store call begins after a `Close` has returned in a trace with one more
observation exactly when it did before, or a `Close` had returned and the
new observation is a store call. -/
theorem storeCallAfterClose_append (t : List Obs) (o : Obs) :
    storeCallAfterClose (t ++ [o])
      = (storeCallAfterClose t || (t.any Obs.isCloseReturned && o.isStoreCall)) := by
  induction t with
  | nil => simp [storeCallAfterClose]
  | cons a t ih =>
    have h1 : storeCallAfterClose (a :: t ++ [o]) = (a.isCloseReturned &&
        (t ++ [o]).any Obs.isStoreCall || storeCallAfterClose (t ++ [o])) := rfl
    rw [h1, ih, List.any_append]
    simp only [storeCallAfterClose, List.any_cons, List.any_nil, Bool.or_false]
    generalize a.isCloseReturned = b1
    generalize storeCallAfterClose t = b2
    generalize t.any Obs.isStoreCall = b3
    generalize t.any Obs.isCloseReturned = b4
    generalize o.isStoreCall = b5
    cases b1 <;> cases b2 <;> cases b3 <;> cases b4 <;> cases b5 <;> rfl

/-- A thread that does not hold the lock stays where it may be when the
closed flag gets set. -/
theorem Thread.ok_frame (c c' : Bool) (th : Thread) (hc : c = true → c' = true)
    (h : Thread.ok false c th = true) : Thread.ok false c' th = true := by
  cases c <;> cases c'
  · exact h
  · simp only [Thread.ok] at h ⊢
    simp at h ⊢
    exact ⟨h.1, h.2.imp id (fun h2 => h2.1)⟩
  · exact absurd (hc rfl) (by decide)
  · exact h


/-- When the thread `tid`, the only one that may hold the lock, moves on to a
place where it may be, every thread is where it may be. -/
theorem threads_advance (threads : List Thread) (l0 : Option Nat) (c0 : Bool) (tid : Nat)
    (th : Thread) (rest : Stmts) (l : Option Nat) (c : Bool)
    (hinv : ∀ j thj, threads[j]? = some thj → Thread.ok (l0 == some j) c0 thj = true)
    (hl0 : l0 = none ∨ l0 = some tid) (hl : l = none ∨ l = some tid)
    (hc : c0 = true → c = true)
    (hnew : Thread.ok (l == some tid) c { th with rest := rest } = true) :
    ∀ j thj, (threads.set tid { th with rest := rest })[j]? = some thj →
      Thread.ok (l == some j) c thj = true := by
  intro j thj hj
  by_cases hjt : j = tid
  · subst hjt
    rw [List.getElem?_set_self'] at hj
    cases hs : threads[j]? with
    | none => simp [hs] at hj
    | some old =>
      simp [hs] at hj
      rw [← hj]
      exact hnew
  · rw [List.getElem?_set_ne (fun h => hjt h.symm)] at hj
    have hold := hinv j thj hj
    have hm0 : (l0 == some j) = false := by
      rcases hl0 with h0 | h0 <;> simp [h0, hjt, Ne.symm hjt]
    have hm1 : (l == some j) = false := by
      rcases hl with h0 | h0 <;> simp [h0, hjt, Ne.symm hjt]
    rw [hm0] at hold
    rw [hm1]
    exact Thread.ok_frame _ _ _ hc hold

/-- A thread about to lock does not hold the lock and may hold it next. -/
theorem ok_Lock (mine c : Bool) (m : Method) (r : Stmts)
    (h : Thread.ok mine c ⟨m, .Lock :: r⟩ = true) :
    mine = false ∧ r ≠ [] ∧ ∀ c2, Thread.ok true c2 ⟨m, r⟩ = true := by
  cases m <;> cases mine <;> simp [Thread.ok, Method.locked, Method.body, setBody, getBody] at h ⊢ <;>
    subst h <;> simp

/-- A thread about to unlock holds the lock and returns next; if it is a
`Close`, the client is closed. -/
theorem ok_Unlock (mine c : Bool) (m : Method) (r : Stmts)
    (h : Thread.ok mine c ⟨m, .Unlock :: r⟩ = true) :
    mine = true ∧ r = [] ∧ (m = .Close → c = true) ∧ Thread.ok false c ⟨m, []⟩ = true := by
  cases m <;> cases mine <;> cases c <;>
    simp [Thread.ok, Method.locked, Method.body, setBody, getBody] at h ⊢ <;> exact h

/-- A thread about to test `c.closed` holds the lock. -/
theorem ok_ifClosedReturn (mine c : Bool) (m : Method) (r : Stmts)
    (h : Thread.ok mine c ⟨m, .ifClosedReturn :: r⟩ = true) :
    mine = true ∧ r ≠ [] ∧ Thread.ok true true ⟨m, [.Unlock]⟩ = true ∧
      Thread.ok true false ⟨m, r⟩ = true := by
  cases m <;> cases mine <;>
    simp [Thread.ok, Method.locked, Method.body, setBody, getBody] at h ⊢ <;> subst h <;> simp

/-- A thread about to call the store holds the lock and the client is open. -/
theorem ok_storeCall (mine c : Bool) (m : Method) (r : Stmts)
    (h : Thread.ok mine c ⟨m, .storeCall :: r⟩ = true) :
    mine = true ∧ c = false ∧ r ≠ [] ∧ Thread.ok true false ⟨m, r⟩ = true := by
  cases m <;> cases mine <;> cases c <;>
    simp [Thread.ok, Method.locked, Method.body, setBody, getBody] at h ⊢ <;> subst h <;> simp

/-- A thread about to set the closed flag holds the lock. -/
theorem ok_setClosed (mine c : Bool) (m : Method) (r : Stmts)
    (h : Thread.ok mine c ⟨m, .setClosed :: r⟩ = true) :
    mine = true ∧ r ≠ [] ∧ Thread.ok true true ⟨m, r⟩ = true := by
  cases m <;> cases mine <;>
    simp [Thread.ok, Method.locked, Method.body, setBody, getBody] at h ⊢
  subst h
  simp

/-- A thread about to call `cancel` holds the lock and the client is closed. -/
theorem ok_cancel (mine c : Bool) (m : Method) (r : Stmts)
    (h : Thread.ok mine c ⟨m, .cancel :: r⟩ = true) :
    mine = true ∧ c = true ∧ r ≠ [] ∧ Thread.ok true true ⟨m, r⟩ = true := by
  cases m <;> cases mine <;> cases c <;>
    simp [Thread.ok, Method.locked, Method.body, setBody, getBody] at h ⊢
  subst h
  simp

/-- The lock is held by `tid` when the test says so. -/
theorem lock_eq_of_mine (l : Option Nat) (tid : Nat) (h : (l == some tid) = true) :
    l = some tid := by
  simpa using h

/-- One step of a run of locking methods keeps the invariant. -/
theorem Inv.step (s s1 : Sys) (tid : Nat) (h : Inv s) (hs : s.step tid = some s1) : Inv s1 := by
  unfold Sys.step at hs
  cases hget : s.threads[tid]? with
  | none => simp [hget] at hs
  | some th =>
    obtain ⟨m, rest⟩ := th
    have hok := h.threads tid _ hget
    simp only [hget] at hs
    match rest, hok, hs with
    | [], _, hs => simp at hs
    | .Lock :: r, hok, hs =>
      obtain ⟨hmine, hr, hnew⟩ := ok_Lock _ _ _ _ hok
      by_cases hl : s.lock = none
      · simp only [hl, ↓reduceIte, Option.some.injEq] at hs
        subst hs
        refine ⟨?_, ?_, ?_, ?_⟩
        · exact threads_advance s.threads s.lock s.closed tid ⟨m, .Lock :: r⟩ r (some tid)
            s.closed h.threads (Or.inl hl) (Or.inr rfl) id (by simpa using hnew s.closed)
        · simpa [Sys.advance, hr] using h.closeRet
        · simpa [Sys.advance, hr] using h.safe
        · simpa [Sys.advance, hr] using h.locked
      · simp [hl] at hs
    | .Unlock :: r, hok, hs =>
      obtain ⟨hmine, hr, hcl, hnew⟩ := ok_Unlock _ _ _ _ hok
      have hl := lock_eq_of_mine _ _ hmine
      subst hr
      simp only [hl, ↓reduceIte, Option.some.injEq] at hs
      subst hs
      refine ⟨?_, ?_, ?_, ?_⟩
      · exact threads_advance s.threads s.lock s.closed tid ⟨m, [.Unlock]⟩ [] none
          s.closed h.threads (Or.inr hl) (Or.inl rfl) id (by simpa using hnew)
      · intro hany
        simp only [Sys.advance, ↓reduceIte, List.any_append, List.any_cons, List.any_nil,
          Bool.or_false, Bool.or_eq_true] at hany
        rcases hany with hany | hany
        · exact h.closeRet hany
        · cases m <;> first | exact hcl rfl | simp [Obs.isCloseReturned] at hany
      · simp only [Sys.advance, ↓reduceIte]
        rw [storeCallAfterClose_append, h.safe]
        simp [Obs.isStoreCall]
      · simp only [Sys.advance, ↓reduceIte, List.any_append, h.locked]
        simp [Obs.isUnlockedRead]
    | .ifClosedReturn :: r, hok, hs =>
      obtain ⟨hmine, hr, hnew1, hnew2⟩ := ok_ifClosedReturn _ _ _ _ hok
      have hl := lock_eq_of_mine _ _ hmine
      cases hc : s.closed with
      | true =>
        simp only [hl, hc, decide_True, ↓reduceIte, Option.some.injEq] at hs
        subst hs
        refine ⟨?_, ?_, ?_, ?_⟩
        · exact threads_advance s.threads s.lock s.closed tid ⟨m, .ifClosedReturn :: r⟩
            [.Unlock] (some tid) true h.threads (Or.inr hl) (Or.inr rfl) (fun _ => rfl)
            (by simpa using hnew1)
        · intro _
          rfl
        · simp only [Sys.advance]
          simp only [List.cons_ne_nil, ↓reduceIte]
          rw [storeCallAfterClose_append, h.safe]
          simp [Obs.isStoreCall]
        · simp only [Sys.advance]
          simp only [List.cons_ne_nil, ↓reduceIte, List.any_append, h.locked]
          simp [Obs.isUnlockedRead]
      | false =>
        simp only [hl, hc, decide_True, Bool.false_eq_true, ↓reduceIte,
          Option.some.injEq] at hs
        subst hs
        refine ⟨?_, ?_, ?_, ?_⟩
        · exact threads_advance s.threads s.lock s.closed tid ⟨m, .ifClosedReturn :: r⟩
            r (some tid) false h.threads (Or.inr hl) (Or.inr rfl)
            (fun hcc => by rw [hc] at hcc; exact absurd hcc (by decide))
            (by simpa using hnew2)
        · intro hany
          simp only [Sys.advance, hr, ↓reduceIte, List.any_append, List.any_cons, List.any_nil,
            Bool.or_false, Bool.or_eq_true] at hany
          rcases hany with hany | hany
          · have := h.closeRet hany
            rw [hc] at this
            exact this
          · simp [Obs.isCloseReturned] at hany
        · simp only [Sys.advance, hr, ↓reduceIte]
          rw [storeCallAfterClose_append, h.safe]
          simp [Obs.isStoreCall]
        · simp only [Sys.advance, hr, ↓reduceIte, List.any_append, h.locked]
          simp [Obs.isUnlockedRead]
    | .storeCall :: r, hok, hs =>
      obtain ⟨hmine, hc, hr, hnew⟩ := ok_storeCall _ _ _ _ hok
      have hl := lock_eq_of_mine _ _ hmine
      simp only [Option.some.injEq] at hs
      subst hs
      have hnoclose : s.trace.any Obs.isCloseReturned = false := by
        cases hany : s.trace.any Obs.isCloseReturned
        · rfl
        · have := h.closeRet hany
          rw [hc] at this
          exact absurd this (by decide)
      refine ⟨?_, ?_, ?_, ?_⟩
      · exact threads_advance s.threads s.lock s.closed tid ⟨m, .storeCall :: r⟩
          r s.lock s.closed h.threads (Or.inr hl) (Or.inr hl) id
          (by rw [hc]; simpa [hl] using hnew)
      · intro hany
        simp only [Sys.advance, hr, ↓reduceIte, List.any_append, hnoclose, List.any_cons,
          List.any_nil, Bool.or_false, Bool.false_or] at hany
        simp [Obs.isCloseReturned] at hany
      · simp only [Sys.advance, hr, ↓reduceIte]
        rw [storeCallAfterClose_append, h.safe, hnoclose]
        rfl
      · simp only [Sys.advance, hr, ↓reduceIte, List.any_append, h.locked]
        simp [Obs.isUnlockedRead]
    | .setClosed :: r, hok, hs =>
      obtain ⟨hmine, hr, hnew⟩ := ok_setClosed _ _ _ _ hok
      have hl := lock_eq_of_mine _ _ hmine
      simp only [Option.some.injEq] at hs
      subst hs
      refine ⟨?_, ?_, ?_, ?_⟩
      · exact threads_advance s.threads s.lock s.closed tid ⟨m, .setClosed :: r⟩
          r s.lock true h.threads (Or.inr hl) (Or.inr hl) (fun _ => rfl)
          (by simpa [hl] using hnew)
      · intro _
        rfl
      · simpa [Sys.advance, hr] using h.safe
      · simpa [Sys.advance, hr] using h.locked
    | .cancel :: r, hok, hs =>
      obtain ⟨hmine, hc, hr, hnew⟩ := ok_cancel _ _ _ _ hok
      have hl := lock_eq_of_mine _ _ hmine
      simp only [Option.some.injEq] at hs
      subst hs
      refine ⟨?_, ?_, ?_, ?_⟩
      · exact threads_advance s.threads s.lock s.closed tid ⟨m, .cancel :: r⟩
          r s.lock s.closed h.threads (Or.inr hl) (Or.inr hl) id
          (by rw [hc]; simpa [hl] using hnew)
      · intro _
        exact hc
      · simpa [Sys.advance, hr] using h.safe
      · simpa [Sys.advance, hr] using h.locked

/-- The invariant holds before the goroutines start. -/
theorem Inv.init (calls : List Method) (hl : ∀ m ∈ calls, m.locked = true) :
    Inv (Sys.init calls) := by
  refine ⟨?_, ?_, ?_, ?_⟩
  · intro tid th hth
    simp only [Sys.init, List.getElem?_map, Option.map_eq_some'] at hth
    obtain ⟨m, hm, rfl⟩ := hth
    have hmem : m ∈ calls := List.getElem?_mem hm
    have hlk := hl m hmem
    simp [Thread.ok, Sys.init, hlk]
  · intro hany
    simp [Sys.init] at hany
  · rfl
  · rfl

/-- A run of locking methods keeps the invariant. -/
theorem Inv.run (sched : List Nat) (s s1 : Sys) (h : Inv s) (hs : s.run sched = some s1) :
    Inv s1 := by
  induction sched generalizing s with
  | nil =>
    simp only [Sys.run, Option.some.injEq] at hs
    subst hs
    exact h
  | cons tid sched ih =>
    simp only [Sys.run] at hs
    cases hstep : s.step tid with
    | none => simp [hstep] at hs
    | some s2 =>
      simp only [hstep] at hs
      exact ih s2 (Inv.step s s2 tid h hstep) hs

/-- The methods that lock first keep the promise: however calls of `Close`,
`Mkdir`, `Delete`, `CreateEphemeral`, `CreateEphemeralInOrder` and
`RefreshEphemeral` are interleaved, no store call begins after a `Close` has
returned and `c.closed` is never read without the lock. -/
theorem locking_methods_safe (calls : List Method) (hl : ∀ m ∈ calls, m.locked = true)
    (sched : List Nat) (s : Sys) (hrun : (Sys.init calls).run sched = some s) :
    storeCallAfterClose s.trace = false ∧ s.trace.any Obs.isUnlockedRead = false :=
  have h := Inv.run sched _ s (Inv.init calls hl) hrun
  ⟨h.safe, h.locked⟩

/-- `CreateEphemeralInOrder` on an open client, when the store assigns a key:
the key is returned with a fresh channel, and the goroutine started is the
renewal loop on the assigned key, not on the directory. -/
theorem createEphemeralInOrder_starts_loop {σ : Type} (api : KeysAPI σ) (w : World σ)
    (path data : GoString) (resp : Response) (h : w.c.closed = false)
    (hr : (api.CreateInOrder w.c.newContext path data { TTL := w.c.timeout } w.store).1
      = .ok resp) :
    (Client.CreateEphemeralInOrder api path data w).1
      = (some w.goroutines.length, resp.Node.Key, none) ∧
    (Client.CreateEphemeralInOrder api path data w).2.goroutines
      = w.goroutines ++ [Goroutine.refreshLoop resp.Node.Key w.goroutines.length] := by
  simp [Client.CreateEphemeralInOrder, h, hr, runRefreshEphemeral]

/-- `isErrNoNode` holds exactly of a `client.Error` with the key-not-found
code. -/
theorem isErrNoNode_iff (err : GoError) :
    isErrNoNode (some err) = true ↔ ∃ msg, err = .clientError ErrorCodeKeyNotFound msg := by
  cases err <;> simp [isErrNoNode]

/-- `isErrNodeExists` holds exactly of a `client.Error` with the
already-exists code. -/
theorem isErrNodeExists_iff (err : GoError) :
    isErrNodeExists (some err) = true ↔ ∃ msg, err = .clientError ErrorCodeNodeExist msg := by
  cases err <;> simp [isErrNodeExists]

/-- The in-memory store honours the must-not-exist precondition. -/
theorem memApi_honours : HonoursPrevNoExist memApi (fun s key => s.has key = true) := by
  constructor
  · intro ctx key value opts s hopt hp
    refine ⟨ascii "Key already exists", ?_⟩
    simp [memApi, hopt, hp]
  · intro ctx key value opts s resp hok
    simp only [memApi] at hok ⊢
    split
    · rename_i hc
      rw [if_pos hc] at hok
      cases hok
    · rename_i hc
      rw [if_neg hc] at hok
      split
      · rename_i hc2
        rw [if_pos hc2] at hok
        cases hok
      · simp [MemStore.has, MemStore.put]

/-! ## Theorems -/

/-- C1: on a client whose closed flag is set, every public operation returns
`ErrClosedClient` with no value, key or signal, and leaves the world as it
was: the store is not called (the call log and the store state are
unchanged) and no goroutine is started. -/
theorem closed_client_rejects {σ : Type} (api : KeysAPI σ) (w : World σ)
    (path data : GoString) (must : Bool) (h : w.c.closed = true) :
    Client.Mkdir api path w = (some .ErrClosedClient, w) ∧
    Client.Create api path data w = (some .ErrClosedClient, w) ∧
    Client.Update api path data w = (some .ErrClosedClient, w) ∧
    Client.Delete api path w = (some .ErrClosedClient, w) ∧
    Client.Read api path must w = ((none, some .ErrClosedClient), w) ∧
    Client.List api path must w = ((none, some .ErrClosedClient), w) ∧
    Client.CreateEphemeral api path data w = ((none, some .ErrClosedClient), w) ∧
    Client.CreateEphemeralInOrder api path data w = ((none, [], some .ErrClosedClient), w) ∧
    Client.RefreshEphemeral api path w = (some .ErrClosedClient, w) ∧
    Client.WatchInOrder api path w = ((none, none, some .ErrClosedClient), w) := by
  simp [Client.Mkdir, Client.Create, Client.Update, Client.Delete, Client.Read, Client.List,
    Client.CreateEphemeral, Client.CreateEphemeralInOrder, Client.RefreshEphemeral,
    Client.WatchInOrder, h]

/-- Witness of C1: a closed client on the in-memory store. -/
theorem closed_client_rejects_witness :
    (closedWorld (σ := MemStore) ⟨[], 0⟩).c.closed = true ∧
    Client.Mkdir memApi (ascii "/a") (closedWorld ⟨[], 0⟩)
      = (some .ErrClosedClient, closedWorld ⟨[], 0⟩) ∧
    Client.WatchInOrder memApi (ascii "/a") (closedWorld ⟨[], 0⟩)
      = ((none, none, some .ErrClosedClient), closedWorld ⟨[], 0⟩) :=
  have h := closed_client_rejects memApi (closedWorld ⟨[], 0⟩) (ascii "/a") (ascii "v") true rfl
  ⟨rfl, h.1, h.2.2.2.2.2.2.2.2.2⟩

/-- C2: `Close` on an open client sets the closed flag and invokes `cancel`
once, touching nothing else; `Close` after `Close` changes nothing; and over
every sequence of public operations, from every state, the closed flag ends
set exactly when it was set before or the sequence contains a `Close` (so it
is never cleared), and `cancel` has been invoked once more exactly when the
client was open and the sequence contains a `Close` (so never twice). -/
theorem close_idempotent_irreversible {σ : Type} (api : KeysAPI σ) (w : World σ) :
    (w.c.closed = false → Client.Close w =
      { w with c := { closed := true, timeout := w.c.timeout, cancels := w.c.cancels + 1 } }) ∧
    Client.Close (Client.Close w) = Client.Close w ∧
    (∀ ops : List Op,
      (execAll api ops w).c.closed = (w.c.closed || decide (Op.Close ∈ ops)) ∧
      (execAll api ops w).c.cancels =
        w.c.cancels + (if w.c.closed = false ∧ Op.Close ∈ ops then 1 else 0) ∧
      (execAll api ops w).c.timeout = w.c.timeout) := by
  refine ⟨?_, ?_, ?_⟩
  · intro h
    simp [Client.Close, h]
  · simp only [Client.Close]
    split
    · simp [*]
    · simp
  · intro ops
    exact execAll_client_fields api ops w

/-- Witness of C2: an open client on the in-memory store is closed, and
then used again. -/
theorem close_idempotent_irreversible_witness :
    (openWorld (σ := MemStore) ⟨[], 0⟩).c.closed = false ∧
    Client.Close (openWorld (σ := MemStore) ⟨[], 0⟩) =
      { openWorld ⟨[], 0⟩ with c := { closed := true, timeout := Second * 5, cancels := 1 } } ∧
    (execAll memApi [Op.Mkdir (ascii "/a"), Op.Close, Op.Close, Op.Mkdir (ascii "/b")]
      (openWorld ⟨[], 0⟩)).c.cancels = 1 :=
  have h := close_idempotent_irreversible memApi (openWorld ⟨[], 0⟩)
  ⟨rfl, h.1 rfl,
    (h.2.2 [Op.Mkdir (ascii "/a"), Op.Close, Op.Close, Op.Mkdir (ascii "/b")]).2.1⟩

/-- C3: on an open client `Read` issues one quorum `Get` of the path and,
with `r` the store's response: key-not-found and `must = false` give no value
and no error; key-not-found and `must = true` give that not-found error; any
other store error is returned unchanged whatever `must` is; a directory node
gives `ErrNotFile`; a leaf node gives exactly its value and no error. -/
theorem read_result {σ : Type} (api : KeysAPI σ) (w : World σ) (path : GoString) (must : Bool)
    (h : w.c.closed = false) :
    let r := api.Get w.c.newContext path { Quorum := true } w.store
    (∀ msg, r.1 = .error (.clientError ErrorCodeKeyNotFound msg) → must = false →
      (Client.Read api path must w).1 = (none, none)) ∧
    (∀ msg, r.1 = .error (.clientError ErrorCodeKeyNotFound msg) → must = true →
      (Client.Read api path must w).1 = (none, some (.clientError ErrorCodeKeyNotFound msg))) ∧
    (∀ err, r.1 = .error err → (∀ msg, err ≠ .clientError ErrorCodeKeyNotFound msg) →
      (Client.Read api path must w).1 = (none, some err)) ∧
    (∀ resp, r.1 = .ok resp → resp.Node.Dir = true →
      (Client.Read api path must w).1 = (none, some .ErrNotFile)) ∧
    (∀ resp, r.1 = .ok resp → resp.Node.Dir = false →
      (Client.Read api path must w).1 = (some resp.Node.Value, none)) ∧
    (Client.Read api path must w).2 = { w with
      store := r.2, calls := w.calls ++ [Call.Get w.c.newContext path { Quorum := true }] } := by
  intro r
  refine ⟨?_, ?_, ?_, ?_, ?_, ?_⟩
  · intro msg hr hm
    have hr1 : (api.Get w.c.newContext path { Quorum := true } w.store).1 = _ := hr
    simp [Client.Read, Client.get, h, hr1, hm, isErrNoNode]
  · intro msg hr hm
    have hr1 : (api.Get w.c.newContext path { Quorum := true } w.store).1 = _ := hr
    simp [Client.Read, Client.get, h, hr1, hm]
  · intro err hr hne
    have hr1 : (api.Get w.c.newContext path { Quorum := true } w.store).1 = _ := hr
    have hno : isErrNoNode (some err) = false := by
      cases hb : isErrNoNode (some err)
      · rfl
      · obtain ⟨msg, hmsg⟩ := (isErrNoNode_iff err).1 hb
        exact absurd hmsg (hne msg)
    simp [Client.Read, Client.get, h, hr1, hno]
  · intro resp hr hd
    have hr1 : (api.Get w.c.newContext path { Quorum := true } w.store).1 = _ := hr
    simp [Client.Read, Client.get, h, hr1, hd]
  · intro resp hr hd
    have hr1 : (api.Get w.c.newContext path { Quorum := true } w.store).1 = _ := hr
    simp [Client.Read, Client.get, h, hr1, hd]
  · simp only [Client.Read, Client.get, h]
    split
    · contradiction
    · split <;> split <;> rfl

/-- Witness of C3: an absent key read with `must = false` and with
`must = true`, a store that times out, a directory and a leaf. -/
theorem read_result_witness :
    (scriptedWorld [.error (.clientError 100 (ascii "Key not found"))]).c.closed = false ∧
    (Client.Read scriptedApi (ascii "/a") false
      (scriptedWorld [.error (.clientError 100 (ascii "Key not found"))])).1 = (none, none) ∧
    (Client.Read scriptedApi (ascii "/a") true
      (scriptedWorld [.error (.clientError 100 (ascii "Key not found"))])).1
      = (none, some (.clientError 100 (ascii "Key not found"))) ∧
    (Client.Read scriptedApi (ascii "/a") false
      (scriptedWorld [.error (.other (ascii "context deadline exceeded"))])).1
      = (none, some (.other (ascii "context deadline exceeded"))) ∧
    (Client.Read scriptedApi (ascii "/a") false
      (scriptedWorld [.ok ⟨actionGet, Node.mk (ascii "/a") [] true [], 7⟩])).1
      = (none, some .ErrNotFile) ∧
    (Client.Read scriptedApi (ascii "/a") false
      (scriptedWorld [.ok ⟨actionGet, Node.mk (ascii "/a") (ascii "v") false [], 7⟩])).1
      = (some (ascii "v"), none) :=
  ⟨rfl,
   (read_result scriptedApi (scriptedWorld [.error (.clientError 100 (ascii "Key not found"))])
      (ascii "/a") false rfl).1 (ascii "Key not found") rfl rfl,
   (read_result scriptedApi (scriptedWorld [.error (.clientError 100 (ascii "Key not found"))])
      (ascii "/a") true rfl).2.1 (ascii "Key not found") rfl rfl,
   (read_result scriptedApi (scriptedWorld [.error (.other (ascii "context deadline exceeded"))])
      (ascii "/a") false rfl).2.2.1 _ rfl (fun _ hne => GoError.noConfusion hne),
   (read_result scriptedApi (scriptedWorld [.ok ⟨actionGet, Node.mk (ascii "/a") [] true [], 7⟩])
      (ascii "/a") false rfl).2.2.2.1 _ rfl rfl,
   (read_result scriptedApi
      (scriptedWorld [.ok ⟨actionGet, Node.mk (ascii "/a") (ascii "v") false [], 7⟩])
      (ascii "/a") false rfl).2.2.2.2.1 _ rfl rfl⟩

/-- C4: on an open client `List` issues one quorum `Get` of the path and,
with `r` the store's response: on every store error it returns no keys and
the same error as `Read` (none for key-not-found with `must = false`, the
store's error unchanged otherwise); a leaf node gives `ErrNotDir`; a
directory node gives exactly the keys of its child nodes, one per child, in
the store's order, and no error. -/
theorem list_result {σ : Type} (api : KeysAPI σ) (w : World σ) (path : GoString) (must : Bool)
    (h : w.c.closed = false) :
    let r := api.Get w.c.newContext path { Quorum := true } w.store
    (∀ msg, r.1 = .error (.clientError ErrorCodeKeyNotFound msg) → must = false →
      (Client.List api path must w).1 = (none, none)) ∧
    (∀ msg, r.1 = .error (.clientError ErrorCodeKeyNotFound msg) → must = true →
      (Client.List api path must w).1 = (none, some (.clientError ErrorCodeKeyNotFound msg))) ∧
    (∀ err, r.1 = .error err → (∀ msg, err ≠ .clientError ErrorCodeKeyNotFound msg) →
      (Client.List api path must w).1 = (none, some err)) ∧
    (∀ err, r.1 = .error err →
      (Client.List api path must w).1 = (none, (Client.Read api path must w).1.2)) ∧
    (∀ resp, r.1 = .ok resp → resp.Node.Dir = false →
      (Client.List api path must w).1 = (none, some .ErrNotDir)) ∧
    (∀ resp, r.1 = .ok resp → resp.Node.Dir = true →
      (Client.List api path must w).1.1.getD [] = resp.Node.Nodes.map Node.Key ∧
      ((Client.List api path must w).1.1.getD []).length = resp.Node.Nodes.length ∧
      (Client.List api path must w).1.2 = none) ∧
    (Client.List api path must w).2 = { w with
      store := r.2, calls := w.calls ++ [Call.Get w.c.newContext path { Quorum := true }] } := by
  intro r
  refine ⟨?_, ?_, ?_, ?_, ?_, ?_, ?_⟩
  · intro msg hr hm
    have hr1 : (api.Get w.c.newContext path { Quorum := true } w.store).1 = _ := hr
    simp [Client.List, Client.get, h, hr1, hm, isErrNoNode]
  · intro msg hr hm
    have hr1 : (api.Get w.c.newContext path { Quorum := true } w.store).1 = _ := hr
    simp [Client.List, Client.get, h, hr1, hm]
  · intro err hr hne
    have hr1 : (api.Get w.c.newContext path { Quorum := true } w.store).1 = _ := hr
    have hno : isErrNoNode (some err) = false := by
      cases hb : isErrNoNode (some err)
      · rfl
      · obtain ⟨msg, hmsg⟩ := (isErrNoNode_iff err).1 hb
        exact absurd hmsg (hne msg)
    simp [Client.List, Client.get, h, hr1, hno]
  · intro err hr
    have hr1 : (api.Get w.c.newContext path { Quorum := true } w.store).1 = _ := hr
    simp only [Client.List, Client.Read, Client.get, h, hr1]
    by_cases hc : isErrNoNode (some err) && !must
    · simp [hc]
    · simp [hc]
  · intro resp hr hd
    have hr1 : (api.Get w.c.newContext path { Quorum := true } w.store).1 = _ := hr
    simp [Client.List, Client.get, h, hr1, hd]
  · intro resp hr hd
    have hr1 : (api.Get w.c.newContext path { Quorum := true } w.store).1 = _ := hr
    have hres : (Client.List api path must w).1 =
        (if resp.Node.Nodes.map Node.Key = [] then none
          else some (resp.Node.Nodes.map Node.Key), none) := by
      simp [Client.List, Client.get, h, hr1, hd]
    rw [hres]
    by_cases he : resp.Node.Nodes.map Node.Key = []
    · have hn : resp.Node.Nodes = [] := by simpa using he
      simp [hn]
    · simp [he]
  · simp only [Client.List, Client.get, h]
    split
    · contradiction
    · split <;> split <;> rfl

/-- Witness of C4: an absent directory, a leaf, and a directory with two
children of which one has a child of its own. -/
theorem list_result_witness :
    (scriptedWorld [.error (.clientError 100 (ascii "Key not found"))]).c.closed = false ∧
    (Client.List scriptedApi (ascii "/d") false
      (scriptedWorld [.error (.clientError 100 (ascii "Key not found"))])).1 = (none, none) ∧
    (Client.List scriptedApi (ascii "/d") false
      (scriptedWorld [.ok ⟨actionGet, Node.mk (ascii "/d") (ascii "v") false [], 7⟩])).1
      = (none, some .ErrNotDir) ∧
    (Client.List scriptedApi (ascii "/d") false
      (scriptedWorld [.ok ⟨actionGet, Node.mk (ascii "/d") [] true
        [Node.mk (ascii "/d/b") [] true [Node.mk (ascii "/d/b/x") [] false []],
         Node.mk (ascii "/d/a") (ascii "1") false []], 7⟩])).1.1.getD []
      = [ascii "/d/b", ascii "/d/a"] :=
  ⟨rfl,
   (list_result scriptedApi (scriptedWorld [.error (.clientError 100 (ascii "Key not found"))])
      (ascii "/d") false rfl).1 (ascii "Key not found") rfl rfl,
   (list_result scriptedApi
      (scriptedWorld [.ok ⟨actionGet, Node.mk (ascii "/d") (ascii "v") false [], 7⟩])
      (ascii "/d") false rfl).2.2.2.2.1 _ rfl rfl,
   ((list_result scriptedApi
      (scriptedWorld [.ok ⟨actionGet, Node.mk (ascii "/d") [] true
        [Node.mk (ascii "/d/b") [] true [Node.mk (ascii "/d/b/x") [] false []],
         Node.mk (ascii "/d/a") (ascii "1") false []], 7⟩])
      (ascii "/d") false rfl).2.2.2.2.2.1 _ rfl rfl).1⟩

/-- C5: on an open client, with `rm` the store's response to the
create-directory-if-absent call and `rd` its response to the delete call:
`Mkdir` returns nil exactly when `rm` is a success or an error with the
already-exists code, `Delete` returns nil exactly when `rd` is a success or
an error with the key-not-found code, and each returns every other store
error unchanged. Each issues exactly that one call. -/
theorem mkdir_delete_idempotent {σ : Type} (api : KeysAPI σ) (w : World σ) (path : GoString)
    (h : w.c.closed = false) :
    let rm := api.Set w.c.newContext path [] { Dir := true, PrevExist := .PrevNoExist } w.store
    let rd := api.Delete w.c.newContext path w.store
    ((Client.Mkdir api path w).1 = none ↔
      (∃ resp, rm.1 = .ok resp) ∨ ∃ msg, rm.1 = .error (.clientError ErrorCodeNodeExist msg)) ∧
    (∀ err, rm.1 = .error err → (∀ msg, err ≠ .clientError ErrorCodeNodeExist msg) →
      (Client.Mkdir api path w).1 = some err) ∧
    (Client.Mkdir api path w).2 = { w with store := rm.2, calls := w.calls ++
      [Call.Set w.c.newContext path [] { Dir := true, PrevExist := .PrevNoExist }] } ∧
    ((Client.Delete api path w).1 = none ↔
      (∃ resp, rd.1 = .ok resp) ∨ ∃ msg, rd.1 = .error (.clientError ErrorCodeKeyNotFound msg)) ∧
    (∀ err, rd.1 = .error err → (∀ msg, err ≠ .clientError ErrorCodeKeyNotFound msg) →
      (Client.Delete api path w).1 = some err) ∧
    (Client.Delete api path w).2 = { w with store := rd.2, calls := w.calls ++
      [Call.Delete w.c.newContext path] } := by
  intro rm rd
  have hm : (Client.Mkdir api path w).1 =
      match rm.1 with
      | .error err => if isErrNodeExists (some err) then none else some err
      | .ok _ => none := by
    simp only [Client.Mkdir, h]
    split
    · contradiction
    · split
      · next err heq =>
        have heq1 : rm.1 = .error err := heq
        rw [heq1]
        cases hb : isErrNodeExists (some err) <;> simp [hb]
      · next resp heq =>
        have heq1 : rm.1 = .ok resp := heq
        rw [heq1]
  have hd : (Client.Delete api path w).1 =
      match rd.1 with
      | .error err => if isErrNoNode (some err) then none else some err
      | .ok _ => none := by
    simp only [Client.Delete, h]
    split
    · contradiction
    · split
      · next err heq =>
        have heq1 : rd.1 = .error err := heq
        rw [heq1]
        cases hb : isErrNoNode (some err) <;> simp [hb]
      · next resp heq =>
        have heq1 : rd.1 = .ok resp := heq
        rw [heq1]
  refine ⟨?_, ?_, ?_, ?_, ?_, ?_⟩
  · rw [hm]
    cases hr : rm.1 with
    | error err => simpa using isErrNodeExists_iff err
    | ok resp => simp
  · intro err hr hne
    rw [hm, hr]
    have hb : isErrNodeExists (some err) = false := by
      cases hb : isErrNodeExists (some err)
      · rfl
      · obtain ⟨msg, hmsg⟩ := (isErrNodeExists_iff err).1 hb
        exact absurd hmsg (hne msg)
    simp [hb]
  · simp only [Client.Mkdir, h]
    split
    · contradiction
    · split <;> [split; skip] <;> rfl
  · rw [hd]
    cases hr : rd.1 with
    | error err => simpa using isErrNoNode_iff err
    | ok resp => simp
  · intro err hr hne
    rw [hd, hr]
    have hb : isErrNoNode (some err) = false := by
      cases hb : isErrNoNode (some err)
      · rfl
      · obtain ⟨msg, hmsg⟩ := (isErrNoNode_iff err).1 hb
        exact absurd hmsg (hne msg)
    simp [hb]
  · simp only [Client.Delete, h]
    split
    · contradiction
    · split <;> [split; skip] <;> rfl

/-- Witness of C5, on the in-memory store: `Mkdir` of a directory that
exists and `Delete` of a key that is absent both return nil, and an error
that is neither code comes back unchanged from a store that times out. -/
theorem mkdir_delete_idempotent_witness :
    (openWorld (σ := MemStore) ⟨[⟨ascii "/d", [], true⟩], 1⟩).c.closed = false ∧
    (Client.Mkdir memApi (ascii "/d") (openWorld ⟨[⟨ascii "/d", [], true⟩], 1⟩)).1 = none ∧
    (Client.Delete memApi (ascii "/x") (openWorld ⟨[⟨ascii "/d", [], true⟩], 1⟩)).1 = none ∧
    (Client.Mkdir scriptedApi (ascii "/d")
      (scriptedWorld [.error (.other (ascii "context deadline exceeded"))])).1
      = some (.other (ascii "context deadline exceeded")) :=
  ⟨rfl,
   (mkdir_delete_idempotent memApi (openWorld ⟨[⟨ascii "/d", [], true⟩], 1⟩)
      (ascii "/d") rfl).1.2 (Or.inr ⟨ascii "Key already exists", rfl⟩),
   (mkdir_delete_idempotent memApi (openWorld ⟨[⟨ascii "/d", [], true⟩], 1⟩)
      (ascii "/x") rfl).2.2.2.1.2 (Or.inr ⟨ascii "Key not found", rfl⟩),
   (mkdir_delete_idempotent scriptedApi
      (scriptedWorld [.error (.other (ascii "context deadline exceeded"))])
      (ascii "/d") rfl).2.1 _ rfl (fun _ hne => GoError.noConfusion hne)⟩

/-- C6: on an open client `CreateEphemeral` issues exactly one store call, a
`Set` of `data` at `path` with the must-not-exist precondition and a TTL
equal to the client's timeout. If the store returns an error, that error is
returned unchanged with a nil channel and no goroutine is started; if the
write succeeds, a fresh channel is returned and the renewal loop for `path`
closing that channel is the one goroutine started. Hence, on a store that
honours the precondition, `CreateEphemeral` on a present key fails with the
already-exists code, and so does a second `CreateEphemeral` on the same path
right after a successful one. -/
theorem createEphemeral_result {σ : Type} (api : KeysAPI σ) (w : World σ)
    (path data : GoString) (h : w.c.closed = false) :
    let opts : SetOptions := { PrevExist := .PrevNoExist, TTL := w.c.timeout }
    let r := api.Set w.c.newContext path data opts w.store
    let out := Client.CreateEphemeral api path data w
    out.2.calls = w.calls ++ [Call.Set w.c.newContext path data opts] ∧
    out.2.store = r.2 ∧
    out.2.c = w.c ∧
    (∀ err, r.1 = .error err →
      out.1 = (none, some err) ∧ out.2.goroutines = w.goroutines) ∧
    (∀ resp, r.1 = .ok resp →
      out.1 = (some w.goroutines.length, none) ∧
      out.2.goroutines = w.goroutines ++ [Goroutine.refreshLoop path w.goroutines.length]) ∧
    (∀ present : σ → GoString → Prop, HonoursPrevNoExist api present →
      (present w.store path →
        ∃ msg, out.1 = (none, some (.clientError ErrorCodeNodeExist msg)) ∧
          out.2.goroutines = w.goroutines) ∧
      (out.1.2 = none → ∀ data2,
        ∃ msg, (Client.CreateEphemeral api path data2 out.2).1
          = (none, some (.clientError ErrorCodeNodeExist msg)))) := by
  intro opts r out
  have hout : out = match r.1 with
      | .error err => ((none, some err),
          { w with store := r.2, calls := w.calls ++ [Call.Set w.c.newContext path data opts] })
      | .ok _ => ((some w.goroutines.length, none),
          { w with store := r.2, calls := w.calls ++ [Call.Set w.c.newContext path data opts],
                   goroutines := w.goroutines ++
                     [Goroutine.refreshLoop path w.goroutines.length] }) := by
    show Client.CreateEphemeral api path data w = _
    simp only [Client.CreateEphemeral, h, runRefreshEphemeral]
    split
    · contradiction
    · split <;> rename_i heq <;>
        (have heq1 : r.1 = _ := heq) <;> rw [heq1]
  have herr : ∀ err, r.1 = .error err →
      out.1 = (none, some err) ∧ out.2.goroutines = w.goroutines := by
    intro err hr
    rw [hout, hr]
    exact ⟨rfl, rfl⟩
  refine ⟨?_, ?_, ?_, herr, ?_, ?_⟩
  · rw [hout]
    split <;> rfl
  · rw [hout]
    split <;> rfl
  · rw [hout]
    split <;> rfl
  · intro resp hr
    rw [hout, hr]
    exact ⟨rfl, rfl⟩
  · intro present hon
    refine ⟨?_, ?_⟩
    · intro hp
      obtain ⟨msg, hmsg⟩ := hon.rejects w.c.newContext path data opts w.store rfl hp
      exact ⟨msg, herr _ hmsg⟩
    · intro hnil data2
      cases hr : r.1 with
      | error err =>
        have h1 := (herr err hr).1
        rw [h1] at hnil
        cases hnil
      | ok resp =>
        have hp : present out.2.store path := by
          have hs := hon.stores w.c.newContext path data opts w.store resp hr
          have hst : out.2.store = r.2 := by
            rw [hout]
            split <;> rfl
          rw [hst]
          exact hs
        have hc : out.2.c = w.c := by
          rw [hout]
          split <;> rfl
        have hopen : out.2.c.closed = false := by rw [hc]; exact h
        obtain ⟨msg, hmsg⟩ := hon.rejects out.2.c.newContext path data2
          { PrevExist := .PrevNoExist, TTL := out.2.c.timeout } out.2.store rfl hp
        refine ⟨msg, ?_⟩
        simp only [Client.CreateEphemeral, hopen]
        split
        · contradiction
        · rw [hmsg]

/-- Witness of C6, on the in-memory store: the first `CreateEphemeral` of
`/lock/x` succeeds and starts one renewal loop, the second fails with
already-exists. -/
theorem createEphemeral_result_witness :
    (openWorld (σ := MemStore) ⟨[], 0⟩).c.closed = false ∧
    (Client.CreateEphemeral memApi (ascii "/lock/x") (ascii "A") (openWorld ⟨[], 0⟩)).1
      = (some 0, none) ∧
    (Client.CreateEphemeral memApi (ascii "/lock/x") (ascii "A") (openWorld ⟨[], 0⟩)).2.goroutines
      = [Goroutine.refreshLoop (ascii "/lock/x") 0] ∧
    ∃ msg, (Client.CreateEphemeral memApi (ascii "/lock/x") (ascii "B")
      (Client.CreateEphemeral memApi (ascii "/lock/x") (ascii "A") (openWorld ⟨[], 0⟩)).2).1
      = (none, some (.clientError ErrorCodeNodeExist msg)) :=
  have h := createEphemeral_result memApi (openWorld ⟨[], 0⟩) (ascii "/lock/x") (ascii "A") rfl
  ⟨rfl, (h.2.2.2.2.1 _ rfl).1, (h.2.2.2.2.1 _ rfl).2,
    (h.2.2.2.2.2 _ memApi_honours).2 rfl (ascii "B")⟩

/-- C7: the renewal loop on `path` closing channel `signal` (the goroutine
that `CreateEphemeral` and `CreateEphemeralInOrder` start), under every
interference of other goroutines and every store. Suppose the first `k`
refresh attempts succeed. Then with fuel `k` the loop has done exactly `k`
rounds, each a refresh followed by a sleep of `c.timeout / 2` (Go's
truncating division), and has not closed the channel. If attempt `k` (the
`k+1`-th) fails with `err`, then with any fuel above `k` the loop does those
`k` rounds, the failing refresh, and closes the channel, and nothing after:
`k + 1` refreshes, one close, the close last. An attempt made on a closed
client (in particular right after a `Close` by another goroutine) fails with
`ErrClosedClient`. -/
theorem renewal_loop_trace {σ : Type} (api : KeysAPI σ) (env : Nat → Interference σ)
    (path : GoString) (signal : Nat) (w : World σ) (k : Nat)
    (hok : ∀ j, j < k → outcomeAt api env path j 0 w = none) :
    (refreshLoop api env path signal k 0 w).1 = okRounds path (Int.tdiv w.c.timeout 2) k ∧
    ((refreshLoop api env path signal k 0 w).1.countP Event.isRefresh = k ∧
      (refreshLoop api env path signal k 0 w).1.countP Event.isClose = 0) ∧
    (∀ err, outcomeAt api env path k 0 w = some err → ∀ extra,
      (refreshLoop api env path signal (k + extra + 1) 0 w).1
        = okRounds path (Int.tdiv w.c.timeout 2) k
          ++ [Event.refresh path (some err), Event.close signal] ∧
      (refreshLoop api env path signal (k + extra + 1) 0 w).1.countP Event.isRefresh = k + 1 ∧
      (refreshLoop api env path signal (k + extra + 1) 0 w).1.countP Event.isClose = 1 ∧
      (refreshLoop api env path signal (k + extra + 1) 0 w).1.getLast?
        = some (Event.close signal)) ∧
    outcomeAt api env path k 0 w
      = (Client.RefreshEphemeral api path (worldAt api env path k 0 w)).1 ∧
    ((worldAt api env path k 0 w).c.closed = true →
      outcomeAt api env path k 0 w = some .ErrClosedClient) ∧
    (Op.Close ∈ (env k).ops → outcomeAt api env path k 0 w = some .ErrClosedClient) := by
  have hclosed : (worldAt api env path k 0 w).c.closed = true →
      outcomeAt api env path k 0 w = some .ErrClosedClient := by
    intro hc
    rw [outcomeAt_eq]
    simp [Client.RefreshEphemeral, hc]
  have htrace := refreshLoop_ok api env path signal k 0 w hok
  refine ⟨htrace, ?_, ?_, outcomeAt_eq api env path k 0 w, hclosed, ?_⟩
  · rw [htrace]
    exact ⟨okRounds_countP_isRefresh _ _ _, okRounds_countP_isClose _ _ _⟩
  · intro err hfail extra
    have hf := refreshLoop_fail api env path signal k extra 0 w err hok hfail
    rw [hf]
    refine ⟨rfl, ?_, ?_, ?_⟩
    · rw [List.countP_append, okRounds_countP_isRefresh]
      simp [Event.isRefresh]
    · rw [List.countP_append, okRounds_countP_isClose]
      simp [Event.isClose]
    · simp
  · intro hc
    apply hclosed
    apply worldAt_closed
    simpa using hc

/-- Witness of C7, on the in-memory store holding `/lock/x`: two refreshes
succeed, `Close` intervenes, the third fails with `ErrClosedClient`, and the
loop closes channel 0 after three refreshes although fuel is left. -/
theorem renewal_loop_trace_witness :
    (refreshLoop memApi closeBeforeThird (ascii "/lock/x") 0 5 0
      (openWorld ⟨[⟨ascii "/lock/x", ascii "A", false⟩], 1⟩)).1
      = [Event.refresh (ascii "/lock/x") none, Event.sleep 2500000000,
         Event.refresh (ascii "/lock/x") none, Event.sleep 2500000000,
         Event.refresh (ascii "/lock/x") (some .ErrClosedClient), Event.close 0] :=
  ((renewal_loop_trace memApi closeBeforeThird (ascii "/lock/x") 0
      (openWorld ⟨[⟨ascii "/lock/x", ascii "A", false⟩], 1⟩) 2
      (fun j hj => match j, hj with
        | 0, _ => rfl
        | 1, _ => rfl)).2.2.1 .ErrClosedClient rfl 2).1

/-- C8: when `WatchInOrder` succeeds, the sorted quorum listing of the path
succeeded with a directory node `resp`; the snapshot is the keys of its
children, the channel is fresh, the client is still open, and the one
goroutine started is the watch on the path with `AfterIndex` the index of
that listing. For every watcher and every interference of other goroutines:
while the first `k` results are read confirmations (action `"get"`), the
goroutine with fuel `k` has created the watcher, consumed those `k` results
and not closed the channel; if result `k` is an error or an event whose
action is not `"get"`, then with any fuel above `k` it consumes exactly the
results `0 .. k` and closes the channel, once, as its last step; and result
`k` is an error when the watcher honours cancellation and another goroutine
has called `Close` right before it. -/
theorem watchInOrder_signal {σ : Type} (api : KeysAPI σ) (w : World σ) (path : GoString)
    (h : (Client.WatchInOrder api path w).1.2.2 = none) :
    let m := Client.Mkdir api path w
    let r := api.Get m.2.c.newContext path { Quorum := true, Sort' := true } m.2.store
    let out := Client.WatchInOrder api path w
    ∃ resp, r.1 = .ok resp ∧ resp.Node.Dir = true ∧
      out.1.1 = some w.goroutines.length ∧
      out.1.2.1.getD [] = resp.Node.Nodes.map Node.Key ∧
      out.2.goroutines = w.goroutines ++
        [Goroutine.watchLoop path { AfterIndex := resp.Index } w.goroutines.length] ∧
      out.2.c.closed = false ∧
      ∀ (Watcher : GoString → WatcherOptions → Nat → Ctx → Except GoError Response)
        (env : Nat → Interference σ) (k : Nat),
        (∀ j, j < k → ∃ x,
          resultAt api env (Watcher path { AfterIndex := resp.Index }) j 0 out.2 = .ok x ∧
            x.Action = actionGet) →
        watchGoroutine api env Watcher path { AfterIndex := resp.Index }
            w.goroutines.length k out.2
          = Event.watcher path { AfterIndex := resp.Index } :: (List.range k).map Event.next ∧
        (((∃ e, resultAt api env (Watcher path { AfterIndex := resp.Index }) k 0 out.2
            = .error e) ∨
          ∃ x, resultAt api env (Watcher path { AfterIndex := resp.Index }) k 0 out.2 = .ok x ∧
            x.Action ≠ actionGet) →
          ∀ extra,
          watchGoroutine api env Watcher path { AfterIndex := resp.Index }
              w.goroutines.length (k + extra + 1) out.2
            = Event.watcher path { AfterIndex := resp.Index } ::
                (List.range (k + 1)).map Event.next ++ [Event.close w.goroutines.length] ∧
          (watchGoroutine api env Watcher path { AfterIndex := resp.Index }
              w.goroutines.length (k + extra + 1) out.2).countP Event.isClose = 1) ∧
        (HonoursCancel (Watcher path { AfterIndex := resp.Index }) →
          Op.Close ∈ (env k).ops →
          ∃ e, resultAt api env (Watcher path { AfterIndex := resp.Index }) k 0 out.2
            = .error e) := by
  intro m r out
  have hg : m.2.goroutines = w.goroutines := Mkdir_goroutines_eq api path w
  cases hm : m.1 with
  | some err =>
    have hm1 : (Client.Mkdir api path w).1 = some err := hm
    simp [Client.WatchInOrder, hm1] at h
  | none =>
    have hm1 : (Client.Mkdir api path w).1 = none := hm
    cases hc : m.2.c.closed with
    | true =>
      have hc1 : (Client.Mkdir api path w).2.c.closed = true := hc
      simp [Client.WatchInOrder, hm1, hc1] at h
    | false =>
      have hc1 : (Client.Mkdir api path w).2.c.closed = false := hc
      cases hr : r.1 with
      | error err =>
        have hr1 : (api.Get (Client.Mkdir api path w).2.c.newContext path
          { Quorum := true, Sort' := true } (Client.Mkdir api path w).2.store).1 = .error err := hr
        simp [Client.WatchInOrder, hm1, hc1, hr1] at h
      | ok resp =>
        have hr1 : (api.Get (Client.Mkdir api path w).2.c.newContext path
          { Quorum := true, Sort' := true } (Client.Mkdir api path w).2.store).1 = .ok resp := hr
        cases hd : resp.Node.Dir with
        | false => simp [Client.WatchInOrder, hm1, hc1, hr1, hd] at h
        | true =>
          have hg1 : (Client.Mkdir api path w).2.goroutines = w.goroutines := hg
          have hopen : out.2.c.closed = false := by
            show (Client.WatchInOrder api path w).2.c.closed = false
            simp [Client.WatchInOrder, hm1, hc1, hr1, hd]
          refine ⟨resp, rfl, hd, ?_, ?_, ?_, hopen, ?_⟩
          · show (Client.WatchInOrder api path w).1.1 = _
            simp [Client.WatchInOrder, hm1, hc1, hr1, hd, hg1]
          · show (Client.WatchInOrder api path w).1.2.1.getD [] = _
            simp only [Client.WatchInOrder, hm1, hc1, hr1, hd]
            by_cases he : resp.Node.Nodes.map Node.Key = []
            · have hn : resp.Node.Nodes = [] := by simpa using he
              simp [hn]
            · simp [he]
          · show (Client.WatchInOrder api path w).2.goroutines = _
            simp [Client.WatchInOrder, hm1, hc1, hr1, hd, hg1]
          · intro Watcher env k hget
            refine ⟨?_, ?_, ?_⟩
            · simp only [watchGoroutine]
              rw [watchLoop_get _ _ _ _ k 0 _ hget, List.range_eq_range']
            · intro hstop extra
              have ht := watchLoop_stop api env _ w.goroutines.length k extra 0 _ hget hstop
              simp only [watchGoroutine]
              rw [ht, List.range_eq_range']
              refine ⟨rfl, ?_⟩
              rw [List.countP_cons, List.countP_append, List.countP_map]
              simp [Event.isClose, Function.comp_def, List.countP_eq_zero]
            · intro hon hclose
              have hwf : CancelledWhenClosed out.2.c := by
                intro hcl
                rw [hopen] at hcl
                exact absurd hcl (by decide)
              have hwk := watchWorld_cancelledWhenClosed api env k 0 out.2 hwf
              have hcl := watchWorld_closed api env k 0 out.2 (by simpa using hclose)
              rw [resultAt_eq]
              apply hon
              simp [rootContext, hwk hcl]

/-- Witness of C8, on the in-memory store holding the directory `/q` with
two entries: `WatchInOrder` succeeds; with a watcher that delivers a creation
as its third result the goroutine closes channel 0 at that result; with an
idle watcher and a `Close` by another goroutine before the third result it
closes channel 0 at that result as well. -/
theorem watchInOrder_signal_witness :
    (Client.WatchInOrder memApi (ascii "/q") (openWorld
      ⟨[⟨ascii "/q", [], true⟩, ⟨ascii "/q/1", ascii "A", false⟩,
        ⟨ascii "/q/2", ascii "B", false⟩], 3⟩)).1.2.2 = none ∧
    ∃ opts,
      watchGoroutine memApi quiet createdThird (ascii "/q") opts 0 5
        (Client.WatchInOrder memApi (ascii "/q") (openWorld
          ⟨[⟨ascii "/q", [], true⟩, ⟨ascii "/q/1", ascii "A", false⟩,
            ⟨ascii "/q/2", ascii "B", false⟩], 3⟩)).2
        = [Event.watcher (ascii "/q") opts, Event.next 0, Event.next 1, Event.next 2,
           Event.close 0] ∧
      watchGoroutine memApi closeBeforeThird idleWatcher (ascii "/q") opts 0 5
        (Client.WatchInOrder memApi (ascii "/q") (openWorld
          ⟨[⟨ascii "/q", [], true⟩, ⟨ascii "/q/1", ascii "A", false⟩,
            ⟨ascii "/q/2", ascii "B", false⟩], 3⟩)).2
        = [Event.watcher (ascii "/q") opts, Event.next 0, Event.next 1, Event.next 2,
           Event.close 0] :=
  have h := watchInOrder_signal memApi (openWorld
      ⟨[⟨ascii "/q", [], true⟩, ⟨ascii "/q/1", ascii "A", false⟩,
        ⟨ascii "/q/2", ascii "B", false⟩], 3⟩) (ascii "/q") rfl
  ⟨rfl, h.elim (fun resp hr =>
    ⟨{ AfterIndex := resp.Index },
      ((hr.2.2.2.2.2.2 createdThird quiet 2
        (fun j hj => match j, hj with
          | 0, _ => ⟨_, rfl, rfl⟩
          | 1, _ => ⟨_, rfl, rfl⟩)).2.1
        (Or.inr ⟨_, rfl, by decide⟩) 2).1,
      ((hr.2.2.2.2.2.2 idleWatcher closeBeforeThird 2
        (fun j hj => match j, hj with
          | 0, _ => ⟨_, rfl, rfl⟩
          | 1, _ => ⟨_, rfl, rfl⟩)).2.1
        (Or.inl ⟨_, rfl⟩) 2).1⟩)⟩

/-- C10: `New` and the auth string, for every endpoint list, timeout and
store-client constructor. Every auth string is of one of three kinds.
(1) Empty: the constructor is called with empty username and password.
(2) Non-empty and malformed, that is without a `':'` or starting with `':'`
(empty user part): `New` fails with the invalid-auth error and returns no
client. (3) `user ++ ":" ++ password` with `user` non-empty and free of
`':'`: the constructor is called with exactly `user` and `password` (the
password may be empty and may contain `':'`). In (1) and (3) `New` returns
the constructor's error, or an open client whose timeout is the given one,
or five seconds when that is not positive. -/
theorem new_validates_auth {τ : Type} (clientNew : Config → Except GoError τ)
    (addrlist auth : GoString) (timeout : Duration) :
    (auth = [] ∨ (auth ≠ [] ∧ ((58 : UInt8) ∉ auth ∨ auth.head? = some 58)) ∨
      ∃ user password, auth = user ++ 58 :: password ∧ user ≠ [] ∧ (58 : UInt8) ∉ user) ∧
    (auth ≠ [] → ((58 : UInt8) ∉ auth ∨ auth.head? = some 58) →
      New clientNew addrlist auth timeout = .error .invalidAuth) ∧
    (auth = [] → ∃ cfg : Config, cfg.Username = [] ∧ cfg.Password = [] ∧
      New clientNew addrlist auth timeout = (clientNew cfg).map (fun c =>
        (c, { closed := false, timeout := if timeout ≤ 0 then Second * 5 else timeout,
              cancels := 0 }))) ∧
    (∀ user password, auth = user ++ 58 :: password → user ≠ [] → (58 : UInt8) ∉ user →
      ∃ cfg : Config, cfg.Username = user ∧ cfg.Password = password ∧
      New clientNew addrlist auth timeout = (clientNew cfg).map (fun c =>
        (c, { closed := false, timeout := if timeout ≤ 0 then Second * 5 else timeout,
              cancels := 0 }))) := by
  refine ⟨?_, ?_, ?_, ?_⟩
  · by_cases he : auth = []
    · exact Or.inl he
    · by_cases hm : (58 : UInt8) ∈ auth
      · obtain ⟨user, password, hsplit, hnot⟩ := List.eq_append_cons_of_mem hm
        by_cases hu : user = []
        · subst hu
          exact Or.inr (Or.inl ⟨he, Or.inr (by simp [hsplit])⟩)
        · exact Or.inr (Or.inr ⟨user, password, hsplit, hu, hnot⟩)
      · exact Or.inr (Or.inl ⟨he, Or.inl hm⟩)
  · intro he hbad
    have hsp := SplitN_colon_two auth he
    rcases hbad with hno | hhead
    · have hcut := cutAtIndex_colon_none auth hno
      simp [New, he, hsp, genSplit, hcut]
    · obtain ⟨rest, hrest⟩ : ∃ rest, auth = 58 :: rest := by
        cases auth with
        | nil => exact absurd rfl he
        | cons b t =>
          simp only [List.head?_cons, Option.some.injEq] at hhead
          exact ⟨t, by rw [hhead]⟩
      have hcut : cutAtIndex colon auth = some ([], rest) := by
        rw [hrest]
        exact cutAtIndex_colon_some [] rest (by simp)
      simp [New, he, hsp, genSplit, hcut]
  · intro he
    refine ⟨{
      Endpoints := (Split addrlist comma).map
        (fun s => if s != [] && !HasPrefix s httpScheme then httpScheme ++ s else s),
      HeaderTimeoutPerRequest := Second * 5 }, rfl, rfl, ?_⟩
    subst he
    simp only [New, bne_self_eq_false, Bool.false_eq_true, ↓reduceIte]
    cases clientNew _ <;> rfl
  · intro user password hsplit hu hnot
    have he : auth ≠ [] := by
      rw [hsplit]
      simp
    have hsp := SplitN_colon_two auth he
    have hcut : cutAtIndex colon auth = some (user, password) := by
      rw [hsplit]
      exact cutAtIndex_colon_some user password hnot
    refine ⟨{
      Endpoints := (Split addrlist comma).map
        (fun s => if s != [] && !HasPrefix s httpScheme then httpScheme ++ s else s),
      HeaderTimeoutPerRequest := Second * 5, Username := user, Password := password },
      rfl, rfl, ?_⟩
    simp only [New, hsp, genSplit, hcut]
    simp only [bne_iff_ne, ne_eq, he, not_false_eq_true, ↓reduceIte, beq_iff_eq, hu]
    cases clientNew _ <;> rfl

/-- Witness of C10: `"alice"` and `":pw"` are refused, `"alice:p:w"` gives
user `alice` and password `p:w`, `"alice:"` gives an empty password. -/
theorem new_validates_auth_witness :
    New (fun cfg => Except.ok cfg) (ascii "10.0.0.1:2379") (ascii "alice") 0
      = .error .invalidAuth ∧
    New (fun cfg => Except.ok cfg) (ascii "10.0.0.1:2379") (ascii ":pw") 0
      = .error .invalidAuth ∧
    (∃ cfg : Config, cfg.Username = ascii "alice" ∧ cfg.Password = ascii "p:w" ∧
      New (fun cfg => Except.ok cfg) (ascii "10.0.0.1:2379") (ascii "alice:p:w") 0
        = .ok (cfg, { closed := false, timeout := 5000000000, cancels := 0 })) ∧
    (∃ cfg : Config, cfg.Username = ascii "alice" ∧ cfg.Password = [] ∧
      New (fun cfg => Except.ok cfg) (ascii "10.0.0.1:2379") (ascii "alice:") 7
        = .ok (cfg, { closed := false, timeout := 7, cancels := 0 })) :=
  ⟨(new_validates_auth _ (ascii "10.0.0.1:2379") (ascii "alice") 0).2.1
      (by decide) (Or.inl (by decide)),
   (new_validates_auth _ (ascii "10.0.0.1:2379") (ascii ":pw") 0).2.1
      (by decide) (Or.inr rfl),
   (new_validates_auth _ (ascii "10.0.0.1:2379") (ascii "alice:p:w") 0).2.2.2
      (ascii "alice") (ascii "p:w") rfl (by decide) (by decide),
   (new_validates_auth _ (ascii "10.0.0.1:2379") (ascii "alice:") 7).2.2.2
      (ascii "alice") [] rfl (by decide) (by decide)⟩

/-- C9, at the failing schedule. Goroutine 0 calls `Create`, goroutine 1
calls `Close`. `Create` reads `c.closed` without the lock and finds the
client open; `Close` then runs to completion; `Create` goes on into `set`,
takes the lock and calls the store: a store call begins after `Close` has
returned, and the flag was read without the lock. The same holds with
`Update`, `Read` or `List` in place of `Create`. -/
theorem store_call_after_close :
    closeDuring Method.Create = some (true,
      [Obs.readClosed 0 false, Obs.readClosed 1 true, Obs.returned 1 Method.Close,
       Obs.storeCall 0, Obs.returned 0 Method.Create], true, true) ∧
    closeDuring Method.Update = some (true,
      [Obs.readClosed 0 false, Obs.readClosed 1 true, Obs.returned 1 Method.Close,
       Obs.storeCall 0, Obs.returned 0 Method.Update], true, true) ∧
    closeDuring Method.Read = some (true,
      [Obs.readClosed 0 false, Obs.readClosed 1 true, Obs.returned 1 Method.Close,
       Obs.storeCall 0, Obs.returned 0 Method.Read], true, true) ∧
    closeDuring Method.List = some (true,
      [Obs.readClosed 0 false, Obs.readClosed 1 true, Obs.returned 1 Method.Close,
       Obs.storeCall 0, Obs.returned 0 Method.List], true, true) := by
  decide

end Etcdclient
